import Mathlib

/-!
# Horizon chart (`src/src/horizon.js`)

A shallow embedding of the `horizon` function of `src/src/horizon.js`
(`src/src/index.js` carries the same function body, line for line).

Conventions of the embedding

* A JavaScript number is a `JsNum`: either `NaN` or a rational value.  The
  arithmetic of the source (`>=`, `<`, `Math.abs`, `Math.max`, `isNaN`) is
  given on `JsNum` with the IEEE rule that every comparison with `NaN` is
  false and every arithmetic result with a `NaN` operand is `NaN`.  Rounding,
  the infinities and the sign of zero are not modelled.  Times (`Date`
  values) are the numbers they convert to.
* `undefined` is `none`.
* Pixel quantities (`size`, `padding`, margins, `width`) are rationals, the
  band count is an integer.
* An exception is `Except.error`.  The model raises the ones the source can
  raise on well-typed input: the `TypeError` of the default x-scale
  constructor on an `undefined` domain (line 71), the `ReferenceError` of
  `uuid()` when the environment has no such global (line 107), the
  `RangeError` of `new Array(bands)` (lines 148, 158), the `TypeError` of
  `colors[sign][...]` when `colors[sign]` is `undefined` (lines 150, 160), and
  whatever a caller's own scale constructor raises.
* The functions of d3 that the computation goes through (`min`, `max`,
  `bisector`, `ascending` of d3-array; the constructors `scaleTime` and
  `scaleLinear` of d3-scale as far as returning or throwing goes) are written
  out after the library.  The colour tables of d3-scale-chromatic and the
  global `uuid` are bindings of the environment, `Env`.
* SVG node construction, the axis, the curve, the scale objects and the path
  strings are not modelled; the chart is the record of what `horizon`
  computes and hands to them.
-/

namespace Horizon

/-! ## JavaScript numbers -/

/-- A JavaScript number: `NaN` or a (rational) value. -/
inductive JsNum where
  | nan : JsNum
  | val (q : ℚ) : JsNum
deriving DecidableEq

namespace JsNum

/-- The global `isNaN(v)` on a number. -/
def isNaN : JsNum → Bool
  | nan => true
  | val _ => false

/-- The comparison `a >= b`; false when an operand is `NaN`. -/
def ge : JsNum → JsNum → Bool
  | val a, val b => decide (b ≤ a)
  | _, _ => false

/-- The comparison `a < b`; false when an operand is `NaN`. -/
def lt : JsNum → JsNum → Bool
  | val a, val b => decide (a < b)
  | _, _ => false

/-- The comparison `a > b`; false when an operand is `NaN`. -/
def gt : JsNum → JsNum → Bool
  | val a, val b => decide (b < a)
  | _, _ => false

/-- The function `Math.abs`. -/
def abs : JsNum → JsNum
  | nan => nan
  | val q => val |q|

/-- The function `Math.max(a, b)`: `NaN` as soon as an argument is `NaN`. -/
def max2 : JsNum → JsNum → JsNum
  | val a, val b => val (max a b)
  | _, _ => nan

end JsNum

/-- Conversion of a possibly `undefined` value to a number, as `Math.abs`,
`Math.max` and `isNaN` do with their arguments: `undefined` becomes `NaN`. -/
def toNumber : Option JsNum → JsNum
  | none => JsNum.nan
  | some v => v

/-! ## The per-series value streams -/

/-- Line 99: `Y.map(y => (y >= 0 ? y : 0))`. -/
def positiveY (Y : List JsNum) : List JsNum :=
  Y.map (fun y => if JsNum.ge y (JsNum.val 0) then y else JsNum.val 0)

/-- Line 100: `Y.map(y => (y < 0 ? Math.abs(y) : 0))`. -/
def negativeY (Y : List JsNum) : List JsNum :=
  Y.map (fun y => if JsNum.lt y (JsNum.val 0) then JsNum.abs y else JsNum.val 0)

/-- The function `min` of d3-array on an array of numbers: the smallest value,
ignoring `NaN`; `undefined` when there is none.  Its loop body is
`if (value != null && (min > value || (min === undefined && value >= value))) min = value`. -/
def d3min (values : List JsNum) : Option JsNum :=
  values.foldl
    (fun m value =>
      if (match m with
          | some m0 => JsNum.gt m0 value
          | none => JsNum.ge value value) then some value else m)
    none

/-- The function `max` of d3-array on an array of numbers: the largest value,
ignoring `NaN`; `undefined` when there is none.  Its loop body is
`if (value != null && (max < value || (max === undefined && value >= value))) max = value`. -/
def d3max (values : List JsNum) : Option JsNum :=
  values.foldl
    (fun m value =>
      if (match m with
          | some m0 => JsNum.lt m0 value
          | none => JsNum.ge value value) then some value else m)
    none

/-- Line 92: `Math.max(Math.abs(min(Y)), max(Y))`. -/
def yMax (Y : List JsNum) : JsNum :=
  JsNum.max2 (JsNum.abs (toNumber (d3min Y))) (toNumber (d3max Y))

/-- Lines 93-97: the domain handed to the y-scale constructor: the caller's
`yDomain` when supplied, `[0, yMax]` otherwise. -/
def yDomainLocal (yDomain : Option (JsNum × JsNum)) (Y : List JsNum) : JsNum × JsNum :=
  match yDomain with
  | some d => d
  | none => (JsNum.val 0, yMax Y)

/-! ## Samples, series and configuration -/

/-- What the source reads from a sample `d` without going through a caller's
accessor: its elements `d[0]` and `d[1]` (the default accessors
`([x]) => x` and `([, y]) => y`) and its property `d.x` (the accessor given to
`bisector` in the hit-test listener), `none` when the sample has no such
property. -/
class JsSample (σ : Type) where
  elem0 : σ → JsNum
  elem1 : σ → JsNum
  propX : σ → Option JsNum

/-- The documented sample shape: a two element array `[time, value]`.  A plain
array has no property `x` (`x = none`); an array object to which the caller
has added one carries it in `x`. -/
structure ArraySample where
  time : JsNum
  value : JsNum
  x : Option JsNum := none
deriving DecidableEq

instance : JsSample ArraySample where
  elem0 d := d.time
  elem1 d := d.value
  propX d := d.x

/-- A series: its name and its data, `none` when `serie.data` is absent (falsy). -/
structure Serie (σ : Type) where
  name : String
  data : Option (List σ)

/-- A colour ramp: an array of colour strings. -/
abbrev Ramp := List String

/-- A colour scheme such as `schemeGreens`: `scheme[k]` is a ramp or `undefined`. -/
abbrev Scheme := ℤ → Option Ramp

/-- An x-scale constructor `xType(domain, range)`, as far as returning or
throwing goes; the domain may be `undefined`. -/
abbrev XScaleCtor := Option (ℚ × ℚ) → ℚ × ℚ → Except String Unit

/-- A y-scale constructor `yType(domain, range)`, as far as returning or
throwing goes. -/
abbrev YScaleCtor := JsNum × JsNum → ℚ × ℚ → Except String Unit

/-- The constructor `scaleTime(domain, range)` of d3-scale: called with two
arguments it runs `this.range(range).domain(domain)`, and `domain(_)` starts
with `Array.from(_, number)`, which throws on `undefined`. -/
def scaleTime : XScaleCtor
  | none, _ => Except.error "TypeError: undefined is not iterable"
  | some _, _ => Except.ok ()

/-- The constructor `scaleLinear(domain, range)` of d3-scale on a two element
domain and range: it returns. -/
def scaleLinear : YScaleCtor :=
  fun _ _ => Except.ok ()

/-- The bindings `horizon` takes from outside its parameters: the global
`uuid`, which no file of the repository defines or imports (`none` when the
environment has none, else the token a call returns), and the two imported
colour schemes of d3-scale-chromatic. -/
structure Env where
  uuid : Option String
  schemeGreens : Scheme
  schemeBlues : Scheme

/-- The options object of a call, each property possibly left out. -/
structure Options (σ : Type) where
  x : Option (σ → JsNum) := none
  y : Option (σ → JsNum) := none
  defined : Option (σ → Nat → Bool) := none
  marginTop : Option ℚ := none
  marginRight : Option ℚ := none
  marginBottom : Option ℚ := none
  marginLeft : Option ℚ := none
  width : Option ℚ := none
  size : Option ℚ := none
  bands : Option ℤ := none
  padding : Option ℚ := none
  xType : Option XScaleCtor := none
  xDomain : Option (ℚ × ℚ) := none
  xRange : Option (ℚ × ℚ) := none
  yType : Option YScaleCtor := none
  yDomain : Option (JsNum × JsNum) := none
  yRange : Option (ℚ × ℚ) := none
  scheme : Option (Scheme × Scheme) := none
  colors : Option (Option Ramp × Option Ramp) := none
  onHover : Bool := false

/-- The bindings of lines 39-61 once the defaults are applied.  `colors` holds
`colors[0]` and `colors[1]`, each a ramp or `undefined`. -/
structure Config (σ : Type) where
  x : σ → JsNum
  y : σ → JsNum
  defined : Option (σ → Nat → Bool)
  marginTop : ℚ
  marginRight : ℚ
  marginBottom : ℚ
  marginLeft : ℚ
  width : ℚ
  size : ℚ
  bands : ℤ
  padding : ℚ
  xType : XScaleCtor
  xDomain : Option (ℚ × ℚ)
  xRange : ℚ × ℚ
  yType : YScaleCtor
  yDomain : Option (JsNum × JsNum)
  yRange : ℚ × ℚ
  rampKey : ℤ
  colors : Option Ramp × Option Ramp
  onHover : Bool

/-- Line 57: the default of `yRange`, `[size, size - bands * (size - padding)]`. -/
def defaultYRange (size : ℚ) (bands : ℤ) (padding : ℚ) : ℚ × ℚ :=
  (size, size - (bands : ℚ) * (size - padding))

/-- Lines 39-61: the parameter defaults, evaluated left to right so that later
defaults see the earlier bindings.  `rampKey` is the `Math.max(3, bands)` at
which line 59 reads each colour scheme. -/
def resolve {σ : Type} [JsSample σ] (env : Env) (o : Options σ) : Config σ :=
  let marginTop := o.marginTop.getD 20
  let marginRight := o.marginRight.getD 0
  let marginBottom := o.marginBottom.getD 0
  let marginLeft := o.marginLeft.getD 0
  let width := o.width.getD 640
  let size := o.size.getD 25
  let bands := o.bands.getD 3
  let padding := o.padding.getD 1
  let scheme := o.scheme.getD (env.schemeGreens, env.schemeBlues)
  { x := o.x.getD JsSample.elem0
    y := o.y.getD JsSample.elem1
    defined := o.defined
    marginTop := marginTop
    marginRight := marginRight
    marginBottom := marginBottom
    marginLeft := marginLeft
    width := width
    size := size
    bands := bands
    padding := padding
    xType := o.xType.getD scaleTime
    xDomain := o.xDomain
    xRange := o.xRange.getD (marginLeft, width - marginRight)
    yType := o.yType.getD scaleLinear
    yDomain := o.yDomain
    yRange := o.yRange.getD (defaultYRange size bands padding)
    rampKey := max 3 bands
    colors := o.colors.getD (scheme.1 (max 3 bands), scheme.2 (max 3 bands))
    onHover := o.onHover }

/-! ## The hit-test: `bisector(d => d.x).left` of d3-array -/

/-- The comparator `ascending(a, b)` of d3-array:
`a == null || b == null ? NaN : a < b ? -1 : a > b ? 1 : a >= b ? 0 : NaN`. -/
def ascending (a b : Option JsNum) : JsNum :=
  match a, b with
  | some a, some b =>
    if JsNum.lt a b then JsNum.val (-1)
    else if JsNum.gt a b then JsNum.val 1
    else if JsNum.ge a b then JsNum.val 0
    else JsNum.nan
  | _, _ => JsNum.nan

/-- The loop of `left`:
`do { mid = (lo + hi) >>> 1; if (compare2(a[mid], x) < 0) lo = mid + 1; else hi = mid; } while (lo < hi)`
followed by `return lo`, where `compare2(d, x)` is `ascending(f(d), x)` for the
accessor `f`; entered under the guard `lo < hi` of `left`, the do-while is the
while loop written here.  `>>>` works on 32 bit unsigned integers.  The loop runs for at
most `fuel` rounds; `left` supplies `hi - lo` of them, and each round shrinks
`hi - lo`. -/
def bisectLoop {σ : Type} (f : σ → Option JsNum) (a : List σ) (x : Option JsNum) :
    Nat → Nat → Nat → Nat
  | 0, lo, _ => lo
  | fuel + 1, lo, hi =>
    if lo < hi then
      let mid := ((lo + hi) % 2 ^ 32) / 2
      if JsNum.lt (ascending (a[mid]?.bind f) x) (JsNum.val 0) then
        bisectLoop f a x fuel (mid + 1) hi
      else
        bisectLoop f a x fuel lo mid
    else lo

/-- The method `bisector(f).left(a, x, lo, hi)` of d3-array:
`if (lo < hi) { if (compare1(x, x) !== 0) return hi; do ... while (lo < hi); } return lo;`
with `compare1 = ascending`. -/
def bisectLeft {σ : Type} (f : σ → Option JsNum) (a : List σ) (x : Option JsNum)
    (lo hi : Nat) : Nat :=
  if lo < hi then
    if ascending x x ≠ JsNum.val 0 then hi
    else bisectLoop f a x (hi - lo) lo hi
  else lo

/-- One entry of the `values` handed to `onHover`: `{ name, value }`; `value`
is `none` when `Y[index]` is `undefined`. -/
structure HoverEntry where
  name : String
  value : Option JsNum
deriving DecidableEq

/-- The variables a `listener` closure of lines 176-183 captures: the series
(its name and data) and the extracted `Y`. -/
structure Listener (σ : Type) where
  name : String
  data : List σ
  Y : List JsNum

/-- Line 177: the index the listener looks up, for the inverted pointer time
`t = xScale.invert(x)`:
`bisector(d => d.x).left(serie.data, t, 0, serie.data.length - 1)`.
For empty data `hi` is `-1` in the source and `0` here; both fail `lo < hi`
and give index `0`. -/
def Listener.index {σ : Type} [JsSample σ] (l : Listener σ) (t : ℚ) : Nat :=
  bisectLeft JsSample.propX l.data (some (JsNum.val t)) 0 (l.data.length - 1)

/-- Lines 176-183: the listener applied to the inverted pointer time. -/
def Listener.call {σ : Type} [JsSample σ] (l : Listener σ) (t : ℚ) : HoverEntry :=
  { name := l.name, value := l.Y[l.index t]? }

/-! ## The per-series loop -/

/-- The value of the variable `defined` (line 42) during the loop: the caller's
predicate, or the closure `(d, i) => !isNaN(X[i]) && !isNaN(Y[i])` that line 86
stores in it, represented by the arrays `X` and `Y` that the closure captured. -/
inductive Defined (σ : Type) where
  | supplied (f : σ → Nat → Bool) : Defined σ
  | closure (X Y : List JsNum) : Defined σ

/-- Application of `defined` to a sample and its index.  An index outside the
captured array reads `undefined`, and `isNaN(undefined)` is true. -/
def Defined.apply {σ : Type} : Defined σ → σ → Nat → Bool
  | Defined.supplied f, d, i => f d i
  | Defined.closure X Y, _, i =>
    !(JsNum.isNaN (toNumber X[i]?)) && !(JsNum.isNaN (toNumber Y[i]?))

/-- The constructor `new Array(n)` for an integer `n`: an array of length `n`,
or a `RangeError` when `n` is negative or above `2^32 - 1`. -/
def newArray (n : ℤ) : Except String (List Unit) :=
  if 0 ≤ n ∧ n < 2 ^ 32 then Except.ok (List.replicate n.toNat ())
  else Except.error "RangeError: Invalid array length"

/-- Line 150 (and 160): the index into the colour ramp for the band copy `k`:
`k + Math.max(0, 3 - bands)`. -/
def fillIndex (bands : ℤ) (k : ℤ) : ℤ :=
  k + max 0 (3 - bands)

/-- One `use` element of lines 144-152 (or 154-162): the index of its fill in
the ramp `colors[sign]` and the `y` of its `translate(0, y)`. -/
structure BandUse where
  fillIndex : ℤ
  translateY : ℚ
deriving DecidableEq

/-- Lines 148-151 for the ramp `colors[sign]`: the data join
`new Array(bands).fill(i)` makes one `use` per array element; for the element
at position `k` the fill callback evaluates
`colors[sign][k + Math.max(0, 3 - bands)]`, which throws when `colors[sign]` is
`undefined`, and the transform is `translate(0, k * size)`.  With no element
the callback does not run. -/
def bandUses (ramp : Option Ramp) (bands : ℤ) (size : ℚ) : Except String (List BandUse) :=
  match newArray bands with
  | Except.error e => Except.error e
  | Except.ok arr =>
    match ramp with
    | some _ =>
      Except.ok ((List.range arr.length).map fun (k : ℕ) =>
        { fillIndex := fillIndex bands (k : ℤ), translateY := (k : ℚ) * size })
    | none =>
      if arr.length = 0 then Except.ok []
      else Except.error "TypeError: Cannot read properties of undefined"

/-- What the loop body computes for one series with data (lines 82-174). -/
structure SeriesGroup where
  index : Nat
  name : String
  uid : String
  X : List JsNum
  Y : List JsNum
  D : List Bool
  I : List Nat
  yMax : JsNum
  yScaleDomain : JsNum × JsNum
  yScaleRange : ℚ × ℚ
  positiveY : List JsNum
  negativeY : List JsNum
  translateY : ℚ
  clipY : ℚ
  clipWidth : ℚ
  clipHeight : ℚ
  positiveUses : List BandUse
  negativeUses : List BandUse
  labelX : ℚ
  labelY : ℚ
deriving DecidableEq

/-- The variables the loop updates: `defined`, the groups appended to the svg
and `seriesListeners`. -/
structure LoopState (σ : Type) where
  defined : Option (Defined σ)
  groups : List SeriesGroup
  seriesListeners : List (Listener σ)

/-- Lines 85-87: `if (defined === undefined) defined = (d, i) => !isNaN(X[i]) && !isNaN(Y[i])`,
the value of `defined` after the statement, for the `X` and `Y` of the series
at hand. -/
def currentDefined {σ : Type} (defined : Option (Defined σ)) (X Y : List JsNum) : Defined σ :=
  match defined with
  | none => Defined.closure X Y
  | some d => d

/-- Lines 82-174 for a series with data `data` at position `i`, given the
value of `defined`, the token `uuid()` returned and the two lists of `use`
elements. -/
def mkGroup {σ : Type} (cfg : Config σ) (defined : Defined σ) (name : String) (data : List σ)
    (i : Nat) (token : String) (positiveUses negativeUses : List BandUse) : SeriesGroup :=
  let X := data.map cfg.x
  let Y := data.map cfg.y
  { index := i
    name := name
    uid := toString i ++ "-" ++ token
    X := X
    Y := Y
    D := data.mapIdx fun idx d => defined.apply d idx
    I := List.range data.length
    yMax := yMax Y
    yScaleDomain := yDomainLocal cfg.yDomain Y
    yScaleRange := cfg.yRange
    positiveY := positiveY Y
    negativeY := negativeY Y
    translateY := (i : ℚ) * cfg.size + cfg.marginTop
    clipY := cfg.padding
    clipWidth := cfg.width
    clipHeight := cfg.size - cfg.padding
    positiveUses := positiveUses
    negativeUses := negativeUses
    labelX := cfg.marginLeft + 5
    labelY := (cfg.size + cfg.padding) / 2 }

/-- The body of `series.forEach((serie, i) => ...)`, lines 76-186, in the order
of the source: a series without data returns at once (77-79); otherwise
`defined` is settled (85-87), the y-scale is constructed (104), `uuid()` is
called (107), the positive `use` elements are made (144-152), then the
negative ones (154-162), and the listener is pushed (185).  Each of the four
calls may throw, which ends the loop and the call of `horizon`. -/
def seriesStep {σ : Type} (env : Env) (cfg : Config σ) (st : LoopState σ) (serie : Serie σ)
    (i : Nat) : Except String (LoopState σ) :=
  match serie.data with
  | none => Except.ok st
  | some data =>
    let defined := currentDefined st.defined (data.map cfg.x) (data.map cfg.y)
    match cfg.yType (yDomainLocal cfg.yDomain (data.map cfg.y)) cfg.yRange with
    | Except.error e => Except.error e
    | Except.ok _ =>
      match env.uuid with
      | none => Except.error "ReferenceError: uuid is not defined"
      | some token =>
        match bandUses cfg.colors.1 cfg.bands cfg.size with
        | Except.error e => Except.error e
        | Except.ok positiveUses =>
          match bandUses cfg.colors.2 cfg.bands cfg.size with
          | Except.error e => Except.error e
          | Except.ok negativeUses =>
            Except.ok
              { defined := some defined
                groups := st.groups ++
                  [mkGroup cfg defined serie.name data i token positiveUses negativeUses]
                seriesListeners := st.seriesListeners ++
                  [{ name := serie.name, data := data, Y := data.map cfg.y }] }

/-- The loop `series.forEach` from position `i` on; an exception ends it. -/
def seriesLoop {σ : Type} (env : Env) (cfg : Config σ) :
    List (Serie σ) → Nat → LoopState σ → Except String (LoopState σ)
  | [], _, st => Except.ok st
  | serie :: rest, i, st =>
    match seriesStep env cfg st serie i with
    | Except.error e => Except.error e
    | Except.ok st1 => seriesLoop env cfg rest (i + 1) st1

/-- What `horizon` builds: the svg attributes, the arguments of the x-scale
constructor, one group per series with data, the listeners, and whether a hover
callback is attached. -/
structure Chart (σ : Type) where
  width : ℚ
  height : ℚ
  xScaleDomain : Option (ℚ × ℚ)
  xScaleRange : ℚ × ℚ
  groups : List SeriesGroup
  seriesListeners : List (Listener σ)
  rulerY2 : ℚ
  onHover : Bool

/-- Line 62: `series.length * size + marginTop + marginBottom`. -/
def chartHeight {σ : Type} (series : List (Serie σ)) (cfg : Config σ) : ℚ :=
  (series.length : ℚ) * cfg.size + cfg.marginTop + cfg.marginBottom

/-- The function `horizon` (lines 39-224) on the bindings of its parameters:
the height (62), the call `xType(xDomain, xRange)` (71), which may throw, the
loop over the series (76-186), and the chart. -/
def horizonCfg {σ : Type} (env : Env) (series : List (Serie σ)) (cfg : Config σ) :
    Except String (Chart σ) :=
  let height := chartHeight series cfg
  match cfg.xType cfg.xDomain cfg.xRange with
  | Except.error e => Except.error e
  | Except.ok _ =>
    match seriesLoop env cfg series 0
        { defined := cfg.defined.map Defined.supplied, groups := [], seriesListeners := [] } with
    | Except.error e => Except.error e
    | Except.ok st =>
      Except.ok
        { width := cfg.width
          height := height
          xScaleDomain := cfg.xDomain
          xScaleRange := cfg.xRange
          groups := st.groups
          seriesListeners := st.seriesListeners
          rulerY2 := height
          onHover := cfg.onHover }

/-- The function `horizon(series, options)` in the environment `env`. -/
def horizon {σ : Type} [JsSample σ] (env : Env) (series : List (Serie σ)) (o : Options σ) :
    Except String (Chart σ) :=
  horizonCfg env series (resolve env o)

/-- Lines 212-219: the `values` handed to `onHover` on a pointer move whose
inverted time is `t`; `none` when no callback was given. -/
def hoverValues {σ : Type} [JsSample σ] (c : Chart σ) (t : ℚ) : Option (List HoverEntry) :=
  if c.onHover then some (c.seriesListeners.map fun listener => listener.call t) else none

/-- The four calls of the loop body that may throw all return, for a series
with data `data`: the y-scale constructor (line 104), `uuid()` (line 107) and
the making of the positive and of the negative `use` elements (lines 144-162). -/
def callsReturn {σ : Type} (env : Env) (cfg : Config σ) (data : List σ) : Prop :=
  cfg.yType (yDomainLocal cfg.yDomain (data.map cfg.y)) cfg.yRange = Except.ok () ∧
  env.uuid.isSome = true ∧
  (∃ uses, bandUses cfg.colors.1 cfg.bands cfg.size = Except.ok uses) ∧
  (∃ uses, bandUses cfg.colors.2 cfg.bands cfg.size = Except.ok uses)

/-! ## The x-domain as the specification words it -/

/-- The x-values of all series combined, through the accessor `x`. -/
def allX {σ : Type} (series : List (Serie σ)) (x : σ → JsNum) : List JsNum :=
  series.flatMap fun serie => (serie.data.getD []).map x

/-- The specification's default x-domain: the extent `[min, max]` of the
x-values of all series combined (the `extent` of d3-array: `undefined` bounds
when there is no value). -/
def specXDomain {σ : Type} (series : List (Serie σ)) (x : σ → JsNum) : Option (ℚ × ℚ) :=
  match d3min (allX series x), d3max (allX series x) with
  | some (JsNum.val a), some (JsNum.val b) => some (a, b)
  | _, _ => none

/-! ## Sample inputs -/

/-- A scheme of d3-scale-chromatic, built as `new Array(3).concat(r3, ..., r9)`:
the entries 0, 1, 2 are holes, the entry `k >= 3` is the ramp at position
`k - 3` of the list, if there is one. -/
def schemeOf (ramps : List Ramp) : Scheme :=
  fun k => if 3 ≤ k then ramps[(k - 3).toNat]? else none

/-- The table `schemeGreens` of d3-scale-chromatic: ramps of 3 to 9 colours. -/
def schemeGreens : Scheme :=
  schemeOf
    [["#e5f5e0", "#a1d99b", "#31a354"],
     ["#edf8e9", "#bae4b3", "#74c476", "#238b45"],
     ["#edf8e9", "#bae4b3", "#74c476", "#31a354", "#006d2c"],
     ["#edf8e9", "#c7e9c0", "#a1d99b", "#74c476", "#31a354", "#006d2c"],
     ["#edf8e9", "#c7e9c0", "#a1d99b", "#74c476", "#41ab5d", "#238b45", "#005a32"],
     ["#f7fcf5", "#e5f5e0", "#c7e9c0", "#a1d99b", "#74c476", "#41ab5d", "#238b45", "#005a32"],
     ["#f7fcf5", "#e5f5e0", "#c7e9c0", "#a1d99b", "#74c476", "#41ab5d", "#238b45", "#006d2c",
      "#00441b"]]

/-- The table `schemeBlues` of d3-scale-chromatic: ramps of 3 to 9 colours. -/
def schemeBlues : Scheme :=
  schemeOf
    [["#deebf7", "#9ecae1", "#3182bd"],
     ["#eff3ff", "#bdd7e7", "#6baed6", "#2171b5"],
     ["#eff3ff", "#bdd7e7", "#6baed6", "#3182bd", "#08519c"],
     ["#eff3ff", "#c6dbef", "#9ecae1", "#6baed6", "#3182bd", "#08519c"],
     ["#eff3ff", "#c6dbef", "#9ecae1", "#6baed6", "#4292c6", "#2171b5", "#084594"],
     ["#f7fbff", "#deebf7", "#c6dbef", "#9ecae1", "#6baed6", "#4292c6", "#2171b5", "#084594"],
     ["#f7fbff", "#deebf7", "#c6dbef", "#9ecae1", "#6baed6", "#4292c6", "#2171b5", "#08519c",
      "#08306b"]]

/-- A page that defines a global `uuid`, with the two schemes as imported. -/
def pageEnv : Env :=
  { uuid := some "110ec58a-a0f2-4ac4-8393-c866d813b8d1"
    schemeGreens := schemeGreens
    schemeBlues := schemeBlues }

/-- A page without a global `uuid`, with the two schemes as imported. -/
def bareEnv : Env :=
  { uuid := none
    schemeGreens := schemeGreens
    schemeBlues := schemeBlues }

/-- A plain array sample `[t, v]` with numeric entries. -/
def sample (t v : ℚ) : ArraySample :=
  { time := JsNum.val t, value := JsNum.val v }

/-- The series `{ name: "A", data: [[0, 5], [1, -3], [2, NaN], [3, 8]] }`. -/
def serieA : Serie ArraySample :=
  { name := "A"
    data := some [sample 0 5, sample 1 (-3), { time := JsNum.val 2, value := JsNum.nan },
      sample 3 8] }

/-- The series `{ name: "B", data: [[0, NaN]] }`. -/
def serieB : Serie ArraySample :=
  { name := "B", data := some [{ time := JsNum.val 0, value := JsNum.nan }] }

/-- A series `{ name: "C" }` without data. -/
def serieC : Serie ArraySample :=
  { name := "C", data := none }

/-- The series `{ name: "T", data: [[0, 10], [1, 11], [2, 12], [3, 13], [4, 14]] }`. -/
def serieT : Serie ArraySample :=
  { name := "T", data := some [sample 0 10, sample 1 11, sample 2 12, sample 3 13, sample 4 14] }

/-- The series `X`: the samples of `T`, each carrying its time as a property `x`
as well. -/
def serieX : Serie ArraySample :=
  { name := "X"
    data := some
      [{ time := JsNum.val 0, value := JsNum.val 10, x := some (JsNum.val 0) },
       { time := JsNum.val 1, value := JsNum.val 11, x := some (JsNum.val 1) },
       { time := JsNum.val 2, value := JsNum.val 12, x := some (JsNum.val 2) },
       { time := JsNum.val 3, value := JsNum.val 13, x := some (JsNum.val 3) },
       { time := JsNum.val 4, value := JsNum.val 14, x := some (JsNum.val 4) }] }

/-! ## The loop, step by step -/

theorem bandUses_of {ramp : Option Ramp} {bands : ℤ} (size : ℚ) (h0 : 0 ≤ bands)
    (h1 : bands < 2 ^ 32) (hr : ramp.isSome = true ∨ bands = 0) :
    bandUses ramp bands size = Except.ok ((List.range bands.toNat).map fun (k : ℕ) =>
      { fillIndex := fillIndex bands (k : ℤ), translateY := (k : ℚ) * size }) := by
  unfold bandUses newArray
  rw [if_pos ⟨h0, h1⟩]
  cases ramp with
  | some r => simp
  | none =>
    rcases hr with hr | hr
    · cases hr
    · subst hr
      simp

theorem bandUses_error_range {ramp : Option Ramp} {bands : ℤ} (size : ℚ)
    (h : bands < 0 ∨ 2 ^ 32 ≤ bands) :
    bandUses ramp bands size = Except.error "RangeError: Invalid array length" := by
  have hn : ¬ (0 ≤ bands ∧ bands < 2 ^ 32) := by omega
  unfold bandUses newArray
  rw [if_neg hn]

theorem bandUses_error_ramp {bands : ℤ} (size : ℚ) (h0 : 0 < bands) (h1 : bands < 2 ^ 32) :
    bandUses none bands size =
      Except.error "TypeError: Cannot read properties of undefined" := by
  unfold bandUses newArray
  rw [if_pos ⟨le_of_lt h0, h1⟩]
  have hne : ¬ bands.toNat = 0 := by omega
  simp [hne]

theorem bandUses_inv {ramp : Option Ramp} {bands : ℤ} {size : ℚ} {uses : List BandUse}
    (h : bandUses ramp bands size = Except.ok uses) :
    0 ≤ bands ∧ bands < 2 ^ 32 ∧ (ramp.isSome = true ∨ bands = 0) ∧
      uses = (List.range bands.toNat).map fun (k : ℕ) =>
        { fillIndex := fillIndex bands (k : ℤ), translateY := (k : ℚ) * size } := by
  by_cases hrange : bands < 0 ∨ 2 ^ 32 ≤ bands
  · rw [bandUses_error_range size hrange] at h
    cases h
  · have h0 : 0 ≤ bands := by omega
    have h1 : bands < 2 ^ 32 := by omega
    by_cases hr : ramp.isSome = true ∨ bands = 0
    · rw [bandUses_of size h0 h1 hr] at h
      simp only [Except.ok.injEq] at h
      exact ⟨h0, h1, hr, h.symm⟩
    · have hnone : ramp = none := by
        cases ramp with
        | none => rfl
        | some r => exact absurd (Or.inl rfl) hr
      subst hnone
      rw [bandUses_error_ramp size (by omega) h1] at h
      cases h

theorem seriesStep_of_no_data {σ : Type} (env : Env) (cfg : Config σ) (st : LoopState σ)
    (serie : Serie σ) (i : Nat) (h : serie.data = none) :
    seriesStep env cfg st serie i = Except.ok st := by
  simp [seriesStep, h]

theorem seriesStep_of_data {σ : Type} (env : Env) (cfg : Config σ) (st : LoopState σ)
    (serie : Serie σ) (i : Nat) {data : List σ} {token : String}
    {positiveUses negativeUses : List BandUse} (h : serie.data = some data)
    (hy : cfg.yType (yDomainLocal cfg.yDomain (data.map cfg.y)) cfg.yRange = Except.ok ())
    (ht : env.uuid = some token)
    (hp : bandUses cfg.colors.1 cfg.bands cfg.size = Except.ok positiveUses)
    (hn : bandUses cfg.colors.2 cfg.bands cfg.size = Except.ok negativeUses) :
    seriesStep env cfg st serie i = Except.ok
      { defined := some (currentDefined st.defined (data.map cfg.x) (data.map cfg.y))
        groups := st.groups ++
          [mkGroup cfg (currentDefined st.defined (data.map cfg.x) (data.map cfg.y))
            serie.name data i token positiveUses negativeUses]
        seriesListeners := st.seriesListeners ++
          [{ name := serie.name, data := data, Y := data.map cfg.y }] } := by
  simp [seriesStep, h, hy, ht, hp, hn]

/-- A step that returns either skipped a series without data or went through
the four calls of a series with data. -/
theorem seriesStep_inv {σ : Type} {env : Env} {cfg : Config σ} {st st1 : LoopState σ}
    {serie : Serie σ} {i : Nat} (h : seriesStep env cfg st serie i = Except.ok st1) :
    (serie.data = none ∧ st1 = st) ∨
    ∃ (data : List σ) (token : String) (positiveUses negativeUses : List BandUse),
      serie.data = some data ∧
      cfg.yType (yDomainLocal cfg.yDomain (data.map cfg.y)) cfg.yRange = Except.ok () ∧
      env.uuid = some token ∧
      bandUses cfg.colors.1 cfg.bands cfg.size = Except.ok positiveUses ∧
      bandUses cfg.colors.2 cfg.bands cfg.size = Except.ok negativeUses ∧
      st1 =
        { defined := some (currentDefined st.defined (data.map cfg.x) (data.map cfg.y))
          groups := st.groups ++
            [mkGroup cfg (currentDefined st.defined (data.map cfg.x) (data.map cfg.y))
              serie.name data i token positiveUses negativeUses]
          seriesListeners := st.seriesListeners ++
            [{ name := serie.name, data := data, Y := data.map cfg.y }] } := by
  cases hd : serie.data with
  | none =>
    rw [seriesStep_of_no_data env cfg st serie i hd] at h
    simp only [Except.ok.injEq] at h
    exact Or.inl ⟨rfl, h.symm⟩
  | some data =>
    right
    cases hy : cfg.yType (yDomainLocal cfg.yDomain (data.map cfg.y)) cfg.yRange with
    | error e => simp [seriesStep, hd, hy] at h
    | ok u =>
      cases ht : env.uuid with
      | none => simp [seriesStep, hd, hy, ht] at h
      | some token =>
        cases hp : bandUses cfg.colors.1 cfg.bands cfg.size with
        | error e => simp [seriesStep, hd, hy, ht, hp] at h
        | ok positiveUses =>
          cases hn : bandUses cfg.colors.2 cfg.bands cfg.size with
          | error e => simp [seriesStep, hd, hy, ht, hp, hn] at h
          | ok negativeUses =>
            rw [seriesStep_of_data env cfg st serie i hd hy ht hp hn] at h
            simp only [Except.ok.injEq] at h
            exact ⟨data, token, positiveUses, negativeUses, rfl, hy, rfl, rfl, rfl, h.symm⟩

/-- A loop that returns on `serie :: rest` returned on the step and on `rest`. -/
theorem seriesLoop_cons_inv {σ : Type} {env : Env} {cfg : Config σ} {serie : Serie σ}
    {rest : List (Serie σ)} {i : Nat} {st st1 : LoopState σ}
    (h : seriesLoop env cfg (serie :: rest) i st = Except.ok st1) :
    ∃ st0, seriesStep env cfg st serie i = Except.ok st0 ∧
      seriesLoop env cfg rest (i + 1) st0 = Except.ok st1 := by
  simp only [seriesLoop] at h
  cases hs : seriesStep env cfg st serie i with
  | error e => rw [hs] at h; cases h
  | ok st0 => rw [hs] at h; exact ⟨st0, rfl, h⟩

theorem seriesLoop_cons_of {σ : Type} {env : Env} {cfg : Config σ} {serie : Serie σ}
    {rest : List (Serie σ)} {i : Nat} {st st0 : LoopState σ}
    (h : seriesStep env cfg st serie i = Except.ok st0) :
    seriesLoop env cfg (serie :: rest) i st = seriesLoop env cfg rest (i + 1) st0 := by
  simp only [seriesLoop, h]

/-- The listener `horizon` pushes for a series, if it has data. -/
theorem seriesLoop_listeners {σ : Type} (env : Env) (cfg : Config σ) :
    ∀ (series : List (Serie σ)) (i : Nat) (st st1 : LoopState σ),
      seriesLoop env cfg series i st = Except.ok st1 →
      st1.seriesListeners = st.seriesListeners ++
        series.filterMap fun serie =>
          serie.data.map fun data =>
            ({ name := serie.name, data := data, Y := data.map cfg.y } : Listener σ) := by
  intro series
  induction series with
  | nil =>
    intro i st st1 h
    simp only [seriesLoop, Except.ok.injEq] at h
    simp [h]
  | cons serie rest ih =>
    intro i st st1 h
    obtain ⟨st0, hstep, hrest⟩ := seriesLoop_cons_inv h
    rw [ih (i + 1) st0 st1 hrest]
    rcases seriesStep_inv hstep with ⟨hd, h0⟩ | ⟨data, token, pu, nu, hd, _, _, _, _, h0⟩
    · subst h0
      simp [List.filterMap_cons, hd]
    · subst h0
      simp [List.filterMap_cons, hd]

/-- Every group of the loop's result was there before or is the `mkGroup` of a
series with data, made after the four calls returned. -/
theorem seriesLoop_groups {σ : Type} (env : Env) (cfg : Config σ) :
    ∀ (series : List (Serie σ)) (i : Nat) (st st1 : LoopState σ),
      seriesLoop env cfg series i st = Except.ok st1 →
      ∀ g ∈ st1.groups, g ∈ st.groups ∨
        ∃ serie ∈ series, ∃ (data : List σ) (defined : Defined σ) (token : String)
          (positiveUses negativeUses : List BandUse) (j : Nat),
          serie.data = some data ∧
          bandUses cfg.colors.1 cfg.bands cfg.size = Except.ok positiveUses ∧
          bandUses cfg.colors.2 cfg.bands cfg.size = Except.ok negativeUses ∧
          g = mkGroup cfg defined serie.name data j token positiveUses negativeUses := by
  intro series
  induction series with
  | nil =>
    intro i st st1 h g hg
    simp only [seriesLoop, Except.ok.injEq] at h
    subst h
    exact Or.inl hg
  | cons serie rest ih =>
    intro i st st1 h g hg
    obtain ⟨st0, hstep, hrest⟩ := seriesLoop_cons_inv h
    rcases ih (i + 1) st0 st1 hrest g hg with h1 | ⟨s, hs, rest1⟩
    · rcases seriesStep_inv hstep with ⟨_, h0⟩ | ⟨data, token, pu, nu, hd, _, _, hp, hn, h0⟩
      · subst h0
        exact Or.inl h1
      · subst h0
        simp only [List.mem_append, List.mem_singleton] at h1
        rcases h1 with h1 | h1
        · exact Or.inl h1
        · exact Or.inr ⟨serie, List.mem_cons_self _ _, data, _, token, pu, nu, i, hd, hp, hn,
            h1⟩
    · exact Or.inr ⟨s, List.mem_cons_of_mem _ hs, rest1⟩

/-- The names of the groups, in order: those of the series with data. -/
theorem seriesLoop_group_names {σ : Type} (env : Env) (cfg : Config σ) :
    ∀ (series : List (Serie σ)) (i : Nat) (st st1 : LoopState σ),
      seriesLoop env cfg series i st = Except.ok st1 →
      st1.groups.map (fun g => g.name) = st.groups.map (fun g => g.name) ++
        (series.filter fun serie => serie.data.isSome).map fun serie => serie.name := by
  intro series
  induction series with
  | nil =>
    intro i st st1 h
    simp only [seriesLoop, Except.ok.injEq] at h
    simp [h]
  | cons serie rest ih =>
    intro i st st1 h
    obtain ⟨st0, hstep, hrest⟩ := seriesLoop_cons_inv h
    rw [ih (i + 1) st0 st1 hrest]
    rcases seriesStep_inv hstep with ⟨hd, h0⟩ | ⟨data, token, pu, nu, hd, _, _, _, _, h0⟩
    · subst h0
      simp [List.filter_cons, hd]
    · subst h0
      simp [List.filter_cons, hd, mkGroup]

/-- The loop returns exactly when the four calls return for every series that
has data; a series without data asks for nothing. -/
theorem seriesLoop_returns_iff {σ : Type} (env : Env) (cfg : Config σ) :
    ∀ (series : List (Serie σ)) (i : Nat) (st : LoopState σ),
      (∃ st1, seriesLoop env cfg series i st = Except.ok st1) ↔
      ∀ serie ∈ series, ∀ data, serie.data = some data → callsReturn env cfg data := by
  intro series
  induction series with
  | nil =>
    intro i st
    exact ⟨fun _ serie hs => (by cases hs), fun _ => ⟨st, rfl⟩⟩
  | cons serie rest ih =>
    intro i st
    constructor
    · rintro ⟨st1, h⟩ s hs data hd
      obtain ⟨st0, hstep, hrest⟩ := seriesLoop_cons_inv h
      rcases List.mem_cons.mp hs with h1 | h1
      · subst h1
        rcases seriesStep_inv hstep with ⟨hnone, _⟩ | ⟨data1, token, pu, nu, hd1, hy, ht, hp, hn, _⟩
        · rw [hnone] at hd; cases hd
        · rw [hd1] at hd
          cases hd
          exact ⟨hy, by rw [ht]; rfl, ⟨pu, hp⟩, ⟨nu, hn⟩⟩
      · exact (ih (i + 1) st0).mp ⟨st1, hrest⟩ s h1 data hd
    · intro hall
      have hrestAll : ∀ s ∈ rest, ∀ data, s.data = some data → callsReturn env cfg data :=
        fun s hs => hall s (List.mem_cons_of_mem _ hs)
      cases hd : serie.data with
      | none =>
        rw [seriesLoop_cons_of (seriesStep_of_no_data env cfg st serie i hd)]
        exact (ih (i + 1) st).mpr hrestAll
      | some data =>
        obtain ⟨hy, ht, ⟨pu, hp⟩, ⟨nu, hn⟩⟩ := hall serie (List.mem_cons_self _ _) data hd
        obtain ⟨token, htoken⟩ := Option.isSome_iff_exists.mp ht
        rw [seriesLoop_cons_of (seriesStep_of_data env cfg st serie i hd hy htoken hp hn)]
        exact (ih (i + 1) _).mpr hrestAll

/-- A chart that `horizonCfg` returns: the x-scale constructor returned, the loop
returned, and the chart is built from the loop's result. -/
theorem horizonCfg_ok {σ : Type} {env : Env} {series : List (Serie σ)} {cfg : Config σ}
    {c : Chart σ} (h : horizonCfg env series cfg = Except.ok c) :
    cfg.xType cfg.xDomain cfg.xRange = Except.ok () ∧
    ∃ st, seriesLoop env cfg series 0
        { defined := cfg.defined.map Defined.supplied, groups := [], seriesListeners := [] }
        = Except.ok st ∧
      c = { width := cfg.width
            height := chartHeight series cfg
            xScaleDomain := cfg.xDomain
            xScaleRange := cfg.xRange
            groups := st.groups
            seriesListeners := st.seriesListeners
            rulerY2 := chartHeight series cfg
            onHover := cfg.onHover } := by
  unfold horizonCfg at h
  cases hx : cfg.xType cfg.xDomain cfg.xRange with
  | error e => rw [hx] at h; cases h
  | ok u =>
    rw [hx] at h
    cases hl : seriesLoop env cfg series 0
        { defined := cfg.defined.map Defined.supplied, groups := [], seriesListeners := [] } with
    | error e => rw [hl] at h; cases h
    | ok st =>
      rw [hl] at h
      simp only [Except.ok.injEq] at h
      exact ⟨rfl, st, rfl, h.symm⟩

/-- The call `horizon` returns a chart exactly when the x-scale constructor
returns and the four calls of the loop body return for every series that has
data. -/
theorem horizon_returns_iff {σ : Type} [JsSample σ] (env : Env) (series : List (Serie σ))
    (o : Options σ) :
    (∃ c, horizon env series o = Except.ok c) ↔
      (resolve env o).xType (resolve env o).xDomain (resolve env o).xRange = Except.ok () ∧
      ∀ serie ∈ series, ∀ data, serie.data = some data →
        callsReturn env (resolve env o) data := by
  constructor
  · rintro ⟨c, h⟩
    obtain ⟨hx, st, hl, _⟩ := horizonCfg_ok h
    exact ⟨hx, (seriesLoop_returns_iff env (resolve env o) series 0 _).mp ⟨st, hl⟩⟩
  · rintro ⟨hx, hall⟩
    obtain ⟨st, hl⟩ := (seriesLoop_returns_iff env (resolve env o) series 0
      { defined := (resolve env o).defined.map Defined.supplied, groups := [],
        seriesListeners := [] }).mpr hall
    unfold horizon horizonCfg
    rw [hx, hl]
    exact ⟨_, rfl⟩

/-- Every group of a chart is the `mkGroup` of one of the series with data. -/
theorem horizon_group_form {σ : Type} [JsSample σ] {env : Env} {series : List (Serie σ)}
    {o : Options σ} {c : Chart σ} (h : horizon env series o = Except.ok c) {g : SeriesGroup}
    (hg : g ∈ c.groups) :
    ∃ serie ∈ series, ∃ (data : List σ) (defined : Defined σ) (token : String)
      (positiveUses negativeUses : List BandUse) (j : Nat),
      serie.data = some data ∧
      bandUses (resolve env o).colors.1 (resolve env o).bands (resolve env o).size
        = Except.ok positiveUses ∧
      bandUses (resolve env o).colors.2 (resolve env o).bands (resolve env o).size
        = Except.ok negativeUses ∧
      g = mkGroup (resolve env o) defined serie.name data j token positiveUses negativeUses := by
  obtain ⟨_, st, hl, hc⟩ := horizonCfg_ok h
  subst hc
  rcases seriesLoop_groups env (resolve env o) series 0 _ st hl g hg with h1 | h1
  · cases h1
  · exact h1

/-! ## When the call returns and when it throws -/

theorem schemeOf_isSome (ramps : List Ramp) (k : ℤ) (h3 : 3 ≤ k) (hk : k < 3 + ramps.length) :
    (schemeOf ramps k).isSome = true := by
  unfold schemeOf
  rw [if_pos h3]
  have hlt : (k - 3).toNat < ramps.length := by omega
  rw [List.getElem?_eq_getElem hlt]
  rfl

/-- On a page with a global `uuid`, with the default scale constructors and the
default colours, the call returns a chart as soon as `xDomain` is supplied and
`0 <= bands <= 9`, whatever the series. -/
theorem horizon_returns_of_defaults {σ : Type} [JsSample σ] (series : List (Serie σ))
    (o : Options σ) (hxt : o.xType = none) (hyt : o.yType = none) (hsch : o.scheme = none)
    (hcol : o.colors = none) (d : ℚ × ℚ) (hxd : o.xDomain = some d)
    (hb0 : 0 ≤ o.bands.getD 3) (hb9 : o.bands.getD 3 ≤ 9) :
    ∃ c, horizon pageEnv series o = Except.ok c := by
  rw [horizon_returns_iff]
  have hbands : (resolve pageEnv o).bands = o.bands.getD 3 := rfl
  have hsome : ∀ ramps : List Ramp, ramps.length = 7 →
      (schemeOf ramps (max 3 (o.bands.getD 3))).isSome = true := by
    intro ramps hlen
    apply schemeOf_isSome
    · exact le_max_left _ _
    · rw [hlen]
      have : max 3 (o.bands.getD 3) ≤ 9 := max_le (by norm_num) hb9
      omega
  constructor
  · simp [resolve, hxt, hxd, scaleTime]
  · intro serie _ data _
    refine ⟨by simp [resolve, hyt, scaleLinear], rfl, ?_, ?_⟩
    · refine ⟨_, bandUses_of _ (by rw [hbands]; exact hb0) (by rw [hbands]; omega) (Or.inl ?_)⟩
      simp only [resolve, hsch, hcol, Option.getD_none, pageEnv]
      exact hsome _ rfl
    · refine ⟨_, bandUses_of _ (by rw [hbands]; exact hb0) (by rw [hbands]; omega) (Or.inl ?_)⟩
      simp only [resolve, hsch, hcol, Option.getD_none, pageEnv]
      exact hsome _ rfl

/-- The exceptions of the call at sample inputs: without `xDomain` the default
`scaleTime` throws at line 71; on a page without a global `uuid` the first
series with data throws at line 107, while series without data alone do not;
with `bands = 10` the default schemes leave `colors[0]` undefined and line 150
throws; with `bands = -1` line 148 throws. -/
theorem horizon_throws :
    horizon pageEnv [serieA] {} = Except.error "TypeError: undefined is not iterable" ∧
    horizon bareEnv [serieC, serieA] { xDomain := some (0, 3) }
      = Except.error "ReferenceError: uuid is not defined" ∧
    (∃ c, horizon bareEnv [serieC] { xDomain := some (0, 3) } = Except.ok c) ∧
    horizon pageEnv [serieA] { bands := some 10, xDomain := some (0, 3) }
      = Except.error "TypeError: Cannot read properties of undefined" ∧
    horizon pageEnv [serieA] { bands := some (-1), xDomain := some (0, 3) }
      = Except.error "RangeError: Invalid array length" :=
  ⟨rfl, rfl, ⟨_, rfl⟩, rfl, rfl⟩

/-! ## The two derived streams -/

theorem positiveY_getElem? (Y : List JsNum) (i : Nat) (q : ℚ) (h : Y[i]? = some (JsNum.val q)) :
    (positiveY Y)[i]? = some (JsNum.val (max q 0)) := by
  unfold positiveY
  rw [List.getElem?_map, h]
  simp only [Option.map_some', JsNum.ge, decide_eq_true_eq]
  by_cases hq : (0 : ℚ) ≤ q
  · rw [if_pos hq, max_eq_left hq]
  · rw [if_neg hq, max_eq_right (le_of_lt (not_le.mp hq))]

theorem negativeY_getElem? (Y : List JsNum) (i : Nat) (q : ℚ) (h : Y[i]? = some (JsNum.val q)) :
    (negativeY Y)[i]? = some (JsNum.val (max (-q) 0)) := by
  unfold negativeY
  rw [List.getElem?_map, h]
  simp only [Option.map_some', JsNum.lt, decide_eq_true_eq, JsNum.abs]
  by_cases hq : q < 0
  · rw [if_pos hq, abs_of_neg hq, max_eq_left (by linarith)]
  · rw [if_neg hq, max_eq_right (by linarith)]

/-- C1: in every chart `horizon` returns, for every series group and every index
`i` at which `Y[i]` is a number `q` (not `NaN`), `positiveY[i]` and
`negativeY[i]` are numbers `p` and `n` with `p - n = q` and `min p n = 0`; both
are non-negative and at most one of them is nonzero. -/
theorem positive_minus_negative_eq {σ : Type} [JsSample σ] (env : Env)
    (series : List (Serie σ)) (o : Options σ) (c : Chart σ)
    (h : horizon env series o = Except.ok c)
    (g : SeriesGroup) (hg : g ∈ c.groups) (i : Nat) (q : ℚ)
    (hq : g.Y[i]? = some (JsNum.val q)) :
    ∃ p n : ℚ, g.positiveY[i]? = some (JsNum.val p) ∧ g.negativeY[i]? = some (JsNum.val n) ∧
      p - n = q ∧ min p n = 0 ∧ 0 ≤ p ∧ 0 ≤ n ∧ (p = 0 ∨ n = 0) := by
  obtain ⟨serie, _, data, defined, token, pu, nu, j, _, _, _, hform⟩ :=
    horizon_group_form h hg
  subst hform
  refine ⟨max q 0, max (-q) 0, positiveY_getElem? _ i q hq, negativeY_getElem? _ i q hq, ?_⟩
  rcases le_total 0 q with h0 | h0
  · rw [max_eq_left h0, max_eq_right (by linarith : -q ≤ 0)]
    simp [h0]
  · rw [max_eq_right h0, max_eq_left (by linarith : (0 : ℚ) ≤ -q)]
    simp [h0]

/-- C1 at the series `A` of `[[0, 5], [1, -3], [2, NaN], [3, 8]]` with
`xDomain = [0, 3]`, index 1. -/
theorem positive_minus_negative_eq_witness :
    ∃ (c : Chart ArraySample) (g : SeriesGroup),
      horizon pageEnv [serieA] { xDomain := some (0, 3) } = Except.ok c ∧ g ∈ c.groups ∧
      g.Y[1]? = some (JsNum.val (-3)) ∧
      ∃ p n : ℚ, g.positiveY[1]? = some (JsNum.val p) ∧ g.negativeY[1]? = some (JsNum.val n) ∧
        p - n = -3 ∧ min p n = 0 ∧ 0 ≤ p ∧ 0 ≤ n ∧ (p = 0 ∨ n = 0) :=
  ⟨_, _, rfl, List.Mem.head _, rfl,
    positive_minus_negative_eq pageEnv [serieA] { xDomain := some (0, 3) } _ rfl _
      (List.Mem.head _) 1 (-3) rfl⟩

/-! ## The colour index of a band -/

theorem bandUses_getElem? {ramp : Option Ramp} {bands : ℤ} {size : ℚ} {uses : List BandUse}
    (h : bandUses ramp bands size = Except.ok uses) (k : ℕ) (hk : (k : ℤ) < bands) :
    uses[k]? = some { fillIndex := fillIndex bands k, translateY := (k : ℚ) * size } := by
  obtain ⟨_, _, _, huses⟩ := bandUses_inv h
  subst huses
  have hk2 : k < bands.toNat := by omega
  simp [List.getElem?_map, List.getElem?_range hk2]

theorem bandUses_length {ramp : Option Ramp} {bands : ℤ} {size : ℚ} {uses : List BandUse}
    (h : bandUses ramp bands size = Except.ok uses) : uses.length = bands.toNat := by
  obtain ⟨_, _, _, huses⟩ := bandUses_inv h
  subst huses
  simp

/-- C3: in every chart `horizon` returns, each series group has, for every band
`k` with `0 <= k < bands`, a positive and a negative `use` whose fill index is
`k + max(0, 3 - bands)`; that index lies in `[0, max(3, bands))`, the size of
the ramp read at `Math.max(3, bands)`, and for the outermost band
`k = bands - 1` it is the last position `max(3, bands) - 1`.  With `bands = 1`
band 0 has index 2, with `bands = 4` band 3 has index 3. -/
theorem fill_index_in_ramp {σ : Type} [JsSample σ] (env : Env) (series : List (Serie σ))
    (o : Options σ) (c : Chart σ) (h : horizon env series o = Except.ok c) (g : SeriesGroup)
    (hg : g ∈ c.groups) (k : ℕ) (hk : (k : ℤ) < (resolve env o).bands) :
    (resolve env o).rampKey = max 3 (resolve env o).bands ∧
    (∃ u : BandUse, g.positiveUses[k]? = some u ∧ g.negativeUses[k]? = some u ∧
      u.fillIndex = (k : ℤ) + max 0 (3 - (resolve env o).bands) ∧
      0 ≤ u.fillIndex ∧ u.fillIndex < max 3 (resolve env o).bands ∧
      ((k : ℤ) = (resolve env o).bands - 1 → u.fillIndex = max 3 (resolve env o).bands - 1)) ∧
    fillIndex 1 0 = 2 ∧ fillIndex 4 3 = 3 := by
  obtain ⟨serie, _, data, defined, token, pu, nu, j, _, hp, hn, hform⟩ :=
    horizon_group_form h hg
  subst hform
  refine ⟨rfl, ⟨_, bandUses_getElem? hp k hk, bandUses_getElem? hn k hk, rfl, ?_, ?_, ?_⟩,
    by decide, by decide⟩
  · simp only [fillIndex]; omega
  · simp only [fillIndex]; omega
  · intro hlast; simp only [fillIndex]; omega

/-- C3 at the series `A` with `bands = 1` and `xDomain = [0, 3]`: band 0 takes
index 2, the last of a ramp of 3. -/
theorem fill_index_in_ramp_witness :
    ∃ (c : Chart ArraySample) (g : SeriesGroup),
      horizon pageEnv [serieA] { bands := some 1, xDomain := some (0, 3) } = Except.ok c ∧
      g ∈ c.groups ∧
      ∃ u : BandUse, g.positiveUses[0]? = some u ∧ g.negativeUses[0]? = some u ∧
        u.fillIndex = 2 :=
  ⟨_, _, rfl, List.Mem.head _,
    (fill_index_in_ramp pageEnv [serieA] { bands := some 1, xDomain := some (0, 3) } _ rfl _
      (List.Mem.head _) 0 (by decide)).2.1.imp fun _ hu => ⟨hu.1, hu.2.1, hu.2.2.1⟩⟩

/-! ## The default y-domain -/

theorem d3min_append (Y : List JsNum) (v : JsNum) :
    d3min (Y ++ [v]) =
      if (match d3min Y with
          | some m0 => JsNum.gt m0 v
          | none => JsNum.ge v v) then some v else d3min Y := by
  simp [d3min, List.foldl_append]

theorem d3max_append (Y : List JsNum) (v : JsNum) :
    d3max (Y ++ [v]) =
      if (match d3max Y with
          | some m0 => JsNum.lt m0 v
          | none => JsNum.ge v v) then some v else d3max Y := by
  simp [d3max, List.foldl_append]

/-- The result of `min(Y)`: `undefined` when `Y` holds no number, else the least
number of `Y`. -/
theorem d3min_spec (Y : List JsNum) :
    (d3min Y = none ∧ ∀ q, JsNum.val q ∉ Y) ∨
    (∃ m, d3min Y = some (JsNum.val m) ∧ JsNum.val m ∈ Y ∧ ∀ q, JsNum.val q ∈ Y → m ≤ q) := by
  induction Y using List.reverseRecOn with
  | nil => exact Or.inl ⟨rfl, fun q hq => by cases hq⟩
  | append_singleton Y v ih =>
    rw [d3min_append]
    rcases ih with ⟨hnone, hno⟩ | ⟨m, hm, hmem, hle⟩
    · rw [hnone]
      cases v with
      | nan =>
        refine Or.inl ⟨by simp [JsNum.ge], ?_⟩
        intro q hq
        rcases List.mem_append.mp hq with h1 | h1
        · exact hno q h1
        · simp at h1
      | val b =>
        refine Or.inr ⟨b, by simp [JsNum.ge], by simp, ?_⟩
        intro q hq
        rcases List.mem_append.mp hq with h1 | h1
        · exact absurd h1 (hno q)
        · simp only [List.mem_singleton, JsNum.val.injEq] at h1
          exact le_of_eq h1.symm
    · rw [hm]
      cases v with
      | nan =>
        refine Or.inr ⟨m, by simp [JsNum.gt], List.mem_append_left _ hmem, ?_⟩
        intro q hq
        rcases List.mem_append.mp hq with h1 | h1
        · exact hle q h1
        · simp at h1
      | val b =>
        by_cases hb : b < m
        · refine Or.inr ⟨b, by simp [JsNum.gt, hb], by simp, ?_⟩
          intro q hq
          rcases List.mem_append.mp hq with h1 | h1
          · exact le_trans (le_of_lt hb) (hle q h1)
          · simp only [List.mem_singleton, JsNum.val.injEq] at h1
            exact le_of_eq h1.symm
        · refine Or.inr ⟨m, by simp [JsNum.gt, hb], List.mem_append_left _ hmem, ?_⟩
          intro q hq
          rcases List.mem_append.mp hq with h1 | h1
          · exact hle q h1
          · simp only [List.mem_singleton, JsNum.val.injEq] at h1
            rw [h1]
            exact not_lt.mp hb

/-- The result of `max(Y)`: `undefined` when `Y` holds no number, else the
greatest number of `Y`. -/
theorem d3max_spec (Y : List JsNum) :
    (d3max Y = none ∧ ∀ q, JsNum.val q ∉ Y) ∨
    (∃ m, d3max Y = some (JsNum.val m) ∧ JsNum.val m ∈ Y ∧ ∀ q, JsNum.val q ∈ Y → q ≤ m) := by
  induction Y using List.reverseRecOn with
  | nil => exact Or.inl ⟨rfl, fun q hq => by cases hq⟩
  | append_singleton Y v ih =>
    rw [d3max_append]
    rcases ih with ⟨hnone, hno⟩ | ⟨m, hm, hmem, hle⟩
    · rw [hnone]
      cases v with
      | nan =>
        refine Or.inl ⟨by simp [JsNum.ge], ?_⟩
        intro q hq
        rcases List.mem_append.mp hq with h1 | h1
        · exact hno q h1
        · simp at h1
      | val b =>
        refine Or.inr ⟨b, by simp [JsNum.ge], by simp, ?_⟩
        intro q hq
        rcases List.mem_append.mp hq with h1 | h1
        · exact absurd h1 (hno q)
        · simp only [List.mem_singleton, JsNum.val.injEq] at h1
          exact le_of_eq h1
    · rw [hm]
      cases v with
      | nan =>
        refine Or.inr ⟨m, by simp [JsNum.lt], List.mem_append_left _ hmem, ?_⟩
        intro q hq
        rcases List.mem_append.mp hq with h1 | h1
        · exact hle q h1
        · simp at h1
      | val b =>
        by_cases hb : m < b
        · refine Or.inr ⟨b, by simp [JsNum.lt, hb], by simp, ?_⟩
          intro q hq
          rcases List.mem_append.mp hq with h1 | h1
          · exact le_trans (hle q h1) (le_of_lt hb)
          · simp only [List.mem_singleton, JsNum.val.injEq] at h1
            exact le_of_eq h1
        · refine Or.inr ⟨m, by simp [JsNum.lt, hb], List.mem_append_left _ hmem, ?_⟩
          intro q hq
          rcases List.mem_append.mp hq with h1 | h1
          · exact hle q h1
          · simp only [List.mem_singleton, JsNum.val.injEq] at h1
            rw [h1]
            exact not_lt.mp hb

/-- As soon as `Y` holds a number, `yMax` is a number: the largest absolute value
among the numbers of `Y`. -/
theorem yMax_spec (Y : List JsNum) (v : ℚ) (hv : JsNum.val v ∈ Y) :
    ∃ m, yMax Y = JsNum.val m ∧ (∀ q, JsNum.val q ∈ Y → |q| ≤ m) ∧
      ∃ w, JsNum.val w ∈ Y ∧ |w| = m := by
  rcases d3min_spec Y with ⟨_, hno⟩ | ⟨lo, hlo, hlomem, hlole⟩
  · exact absurd hv (hno v)
  rcases d3max_spec Y with ⟨_, hno⟩ | ⟨hi, hhi, hhimem, hhile⟩
  · exact absurd hv (hno v)
  refine ⟨max |lo| hi, by simp [yMax, hlo, hhi, toNumber, JsNum.abs, JsNum.max2], ?_, ?_⟩
  · intro q hq
    rcases le_total 0 q with h0 | h0
    · rw [abs_of_nonneg h0]
      exact le_trans (hhile q hq) (le_max_right _ _)
    · rw [abs_of_nonpos h0]
      have h1 : lo ≤ q := hlole q hq
      have h2 : -lo ≤ |lo| := neg_le_abs lo
      exact le_trans (by linarith) (le_max_left _ _)
  · rcases le_total hi |lo| with h0 | h0
    · exact ⟨lo, hlomem, by rw [max_eq_left h0]⟩
    · refine ⟨hi, hhimem, ?_⟩
      rw [max_eq_right h0]
      exact abs_of_nonneg (le_trans (abs_nonneg lo) h0)

/-- The positive part of a number is the negative part of its negation. -/
theorem positiveY_neg (v : ℚ) :
    positiveY [JsNum.val v] = negativeY [JsNum.val (-v)] ∧
    negativeY [JsNum.val v] = positiveY [JsNum.val (-v)] := by
  simp only [positiveY, negativeY, List.map_cons, List.map_nil, JsNum.ge, JsNum.lt, JsNum.abs,
    decide_eq_true_eq, abs_neg]
  rcases lt_trichotomy v 0 with h | h | h
  · have h1 : ¬ (0 : ℚ) ≤ v := not_le.mpr h
    have h2 : ¬ (-v < 0) := by linarith
    have h3 : (0 : ℚ) ≤ -v := by linarith
    simp [h, h1, h2, h3, abs_of_neg h]
  · subst h
    simp
  · have h1 : (0 : ℚ) ≤ v := le_of_lt h
    have h2 : -v < 0 := by linarith
    have h3 : ¬ (0 : ℚ) ≤ -v := by linarith
    have h4 : ¬ v < 0 := by linarith
    simp [h1, h2, h3, h4, abs_of_pos h]

/-- C4: in every chart `horizon` returns for a call without `yDomain`, the
y-domain of each series group is `[0, yMax]` with
`yMax = Math.max(Math.abs(min(Y)), max(Y))` over the `Y` of that group's series
alone.  As soon as `Y[i]` is a number, `yMax` is a number `m`, the largest
absolute value among the numbers of `Y`, and `positiveY[i]` and `negativeY[i]`
lie in `[0, m]`.  The positive part of a value is the negative part of its
negation.  For the y-values 5, -3, `NaN`, 8, `yMax` is 8. -/
theorem yDomain_default {σ : Type} [JsSample σ] (env : Env) (series : List (Serie σ))
    (o : Options σ) (c : Chart σ) (h : horizon env series o = Except.ok c)
    (hy : o.yDomain = none)
    (g : SeriesGroup) (hg : g ∈ c.groups) :
    g.yScaleDomain = (JsNum.val 0, g.yMax) ∧
    g.yMax = JsNum.max2 (JsNum.abs (toNumber (d3min g.Y))) (toNumber (d3max g.Y)) ∧
    (∃ serie ∈ series, ∃ data, serie.data = some data ∧ g.name = serie.name ∧
      g.Y = data.map (resolve env o).y) ∧
    (∀ (i : ℕ) (v : ℚ), g.Y[i]? = some (JsNum.val v) →
      ∃ m : ℚ, g.yMax = JsNum.val m ∧
        (∀ (j : ℕ) (w : ℚ), g.Y[j]? = some (JsNum.val w) → |w| ≤ m) ∧
        (∃ (j : ℕ) (w : ℚ), g.Y[j]? = some (JsNum.val w) ∧ |w| = m) ∧
        ∃ p n : ℚ, g.positiveY[i]? = some (JsNum.val p) ∧ g.negativeY[i]? = some (JsNum.val n) ∧
          0 ≤ p ∧ p ≤ m ∧ 0 ≤ n ∧ n ≤ m) ∧
    (∀ v : ℚ, positiveY [JsNum.val v] = negativeY [JsNum.val (-v)] ∧
      negativeY [JsNum.val v] = positiveY [JsNum.val (-v)]) ∧
    yMax [JsNum.val 5, JsNum.val (-3), JsNum.nan, JsNum.val 8] = JsNum.val 8 := by
  obtain ⟨serie, hs, data, defined, token, pu, nu, j, hd, _, _, hform⟩ :=
    horizon_group_form h hg
  subst hform
  have hcfg : (resolve env o).yDomain = none := hy
  refine ⟨?_, rfl, ⟨serie, hs, data, hd, rfl, rfl⟩, ?_, positiveY_neg, by decide⟩
  · simp only [mkGroup, yDomainLocal, hcfg]
  · intro i v hv
    have hmem : JsNum.val v ∈ data.map (resolve env o).y := List.getElem?_mem hv
    obtain ⟨m, hm, hall, w, hw, hwm⟩ := yMax_spec (data.map (resolve env o).y) v hmem
    obtain ⟨jw, hjw⟩ := List.mem_iff_getElem?.mp hw
    refine ⟨m, hm, fun j1 w1 h1 => hall w1 (List.getElem?_mem h1), ⟨jw, w, hjw, hwm⟩,
      max v 0, max (-v) 0, positiveY_getElem? _ i v hv, negativeY_getElem? _ i v hv,
      le_max_right _ _, ?_, le_max_right _ _, ?_⟩
    · have h1 := hall v hmem
      exact max_le (le_trans (le_abs_self v) h1) (le_trans (abs_nonneg v) h1)
    · have h1 := hall v hmem
      exact max_le (le_trans (neg_le_abs v) h1) (le_trans (abs_nonneg v) h1)

/-- C4 at the series `A` of y-values 5, -3, `NaN`, 8, with `xDomain = [0, 3]` and
no `yDomain`: the y-domain is `[0, 8]`. -/
theorem yDomain_default_witness :
    ∃ (c : Chart ArraySample) (g : SeriesGroup),
      horizon pageEnv [serieA] { xDomain := some (0, 3) } = Except.ok c ∧ g ∈ c.groups ∧
      g.yScaleDomain = (JsNum.val 0, g.yMax) ∧ g.yMax = JsNum.val 8 :=
  ⟨_, _, rfl, List.Mem.head _,
    (yDomain_default pageEnv [serieA] { xDomain := some (0, 3) } _ rfl rfl _
      (List.Mem.head _)).1, by decide⟩

/-! ## The hit-test on the documented sample shape -/

/-- C2 fails on the code: for the series `T` of samples `[0, 10]`, ..., `[4, 14]`,
the default accessors and `xDomain = [0, 4]`, the x-values 0, 1, 2, 3, 4 are
ascending, yet the listener looks up index 0 and reports the value 10 both at
time 2.4 and at time 2, where the claim has index 3 (value 13) and index 2
(value 12): the bisector reads `d.x`, which an array sample does not have, not
the accessor `x`. -/
theorem hit_test_reads_property_x :
    ∃ c : Chart ArraySample,
      horizon pageEnv [serieT] { xDomain := some (0, 4), onHover := true } = Except.ok c ∧
      c.groups.map (fun g => g.X) =
        [[JsNum.val 0, JsNum.val 1, JsNum.val 2, JsNum.val 3, JsNum.val 4]] ∧
      c.seriesListeners.map (fun l => l.index (12 / 5)) = [0] ∧
      c.seriesListeners.map (fun l => l.index 2) = [0] ∧
      hoverValues c (12 / 5) = some [{ name := "T", value := some (JsNum.val 10) }] ∧
      hoverValues c 2 = some [{ name := "T", value := some (JsNum.val 10) }] := by
  have h : (12 / 5 : ℚ) = mkRat 12 5 := by rw [Rat.mkRat_eq_div]; norm_num
  rw [h]
  exact ⟨_, rfl, by decide, by decide, by decide, by decide, by decide⟩

/-! ## The hit-test on samples that carry a property `x` -/

theorem pairwise_getElem? {σ : Type} {key : σ → ℚ} {a : List σ}
    (hsorted : a.Pairwise fun d e => key d ≤ key e) {i j : ℕ} {di dj : σ} (hij : i ≤ j)
    (hi : a[i]? = some di) (hj : a[j]? = some dj) : key di ≤ key dj := by
  rcases Nat.eq_or_lt_of_le hij with h | h
  · subst h
    rw [hi] at hj
    cases hj
    exact le_refl _
  · obtain ⟨hil, hie⟩ := List.getElem?_eq_some.mp hi
    obtain ⟨hjl, hje⟩ := List.getElem?_eq_some.mp hj
    have := List.pairwise_iff_getElem.mp hsorted i j hil hjl h
    rw [hie, hje] at this
    exact this

theorem ascending_lt_zero (p q : ℚ) :
    JsNum.lt (ascending (some (JsNum.val p)) (some (JsNum.val q))) (JsNum.val 0) = true ↔ p < q := by
  unfold ascending
  by_cases h : p < q
  · simp [JsNum.lt, h]
  · by_cases h2 : q < p
    · simp [JsNum.lt, JsNum.gt, h, h2]
    · have h3 : q ≤ p := not_lt.mp h
      simp [JsNum.lt, JsNum.gt, JsNum.ge, h, h2, h3]

theorem ascending_self (q : ℚ) :
    ascending (some (JsNum.val q)) (some (JsNum.val q)) = JsNum.val 0 := by
  simp [ascending, JsNum.lt, JsNum.gt, JsNum.ge]

/-- The loop of `left` on an array sorted by a key that the accessor returns:
with enough rounds it ends between `lo` and `hi`, everything below the result
is below the target, and everything from the result on (below a bound `top`) is
at or above it, provided this held of `lo` and `hi`. -/
theorem bisectLoop_spec {σ : Type} (f : σ → Option JsNum) (key : σ → ℚ) (a : List σ) (t : ℚ)
    (top : ℕ) (hkey : ∀ d ∈ a, f d = some (JsNum.val (key d)))
    (hsorted : a.Pairwise fun d e => key d ≤ key e) (hlen : a.length ≤ 2 ^ 31) :
    ∀ (fuel lo hi : ℕ), hi - lo ≤ fuel → lo ≤ hi → hi ≤ a.length →
      (∀ (i : ℕ) (d : σ), i < lo → a[i]? = some d → key d < t) →
      (∀ (i : ℕ) (d : σ), hi ≤ i → i < top → a[i]? = some d → t ≤ key d) →
      lo ≤ bisectLoop f a (some (JsNum.val t)) fuel lo hi ∧
      bisectLoop f a (some (JsNum.val t)) fuel lo hi ≤ hi ∧
      (∀ (i : ℕ) (d : σ), i < bisectLoop f a (some (JsNum.val t)) fuel lo hi →
        a[i]? = some d → key d < t) ∧
      (∀ (i : ℕ) (d : σ), bisectLoop f a (some (JsNum.val t)) fuel lo hi ≤ i → i < top →
        a[i]? = some d → t ≤ key d) := by
  intro fuel
  induction fuel with
  | zero =>
    intro lo hi hfuel hle _ hlow hhigh
    have heq : lo = hi := by omega
    subst heq
    exact ⟨le_refl _, le_refl _, hlow, hhigh⟩
  | succ fuel ih =>
    intro lo hi hfuel hle hhi hlow hhigh
    unfold bisectLoop
    by_cases hlt : lo < hi
    · have hmod : (lo + hi) % 2 ^ 32 = lo + hi := Nat.mod_eq_of_lt (by omega)
      rw [if_pos hlt, hmod]
      dsimp only
      have hmid1 : lo ≤ (lo + hi) / 2 := by omega
      have hmid2 : (lo + hi) / 2 < hi := by omega
      have hmidlen : (lo + hi) / 2 < a.length := by omega
      have hget : a[(lo + hi) / 2]? = some (a[(lo + hi) / 2]) := List.getElem?_eq_getElem hmidlen
      have hf := hkey _ (List.getElem_mem hmidlen)
      have hbind : (a[(lo + hi) / 2]?.bind f) = some (JsNum.val (key (a[(lo + hi) / 2]))) := by
        rw [hget]; exact hf
      rw [hbind]
      by_cases hcmp : key (a[(lo + hi) / 2]) < t
      · rw [if_pos ((ascending_lt_zero _ _).mpr hcmp)]
        have hrec := ih ((lo + hi) / 2 + 1) hi (by omega) (by omega) hhi
          (by
            intro i d hi1 hd
            exact lt_of_le_of_lt (pairwise_getElem? hsorted (by omega) hd hget) hcmp)
          hhigh
        exact ⟨by omega, hrec.2.1, hrec.2.2.1, hrec.2.2.2⟩
      · rw [if_neg (fun h => hcmp ((ascending_lt_zero _ _).mp h))]
        have hrec := ih lo ((lo + hi) / 2) (by omega) hmid1 (by omega) hlow
          (by
            intro i d hi1 _ hd
            exact le_trans (not_lt.mp hcmp) (pairwise_getElem? hsorted hi1 hget hd))
        exact ⟨hrec.1, by omega, hrec.2.2.1, hrec.2.2.2⟩
    · have heq : lo = hi := by omega
      subst heq
      simp only [hlt, if_false]
      exact ⟨le_refl _, le_refl _, hlow, hhigh⟩

/-- The index the listener looks up when every sample carries a property `x`
holding a number and the data is in ascending order of that property: the
leftmost index whose `x` is at or above the time `t`, clamped to
`data.length - 1`. -/
theorem bisect_left_of_property_x {σ : Type} [JsSample σ] (l : Listener σ) (x : σ → ℚ) (t : ℚ)
    (hx : ∀ d ∈ l.data, JsSample.propX d = some (JsNum.val (x d)))
    (hsorted : l.data.Pairwise fun d e => x d ≤ x e) (hlen : l.data.length ≤ 2 ^ 31) :
    l.index t ≤ l.data.length - 1 ∧
    (∀ (i : ℕ) (d : σ), i < l.index t → l.data[i]? = some d → x d < t) ∧
    (∀ (i : ℕ) (d : σ), l.index t ≤ i → i < l.data.length - 1 → l.data[i]? = some d →
      t ≤ x d) := by
  unfold Listener.index bisectLeft
  by_cases h0 : 0 < l.data.length - 1
  · rw [if_pos h0, ascending_self]
    simp only [ne_eq, not_true_eq_false, if_false]
    have hspec := bisectLoop_spec JsSample.propX x l.data t (l.data.length - 1) hx hsorted hlen
      (l.data.length - 1 - 0) 0 (l.data.length - 1) (le_refl _) (Nat.zero_le _) (by omega)
      (by intro i d hi; omega) (by intro i d h1 h2; omega)
    exact ⟨hspec.2.1, hspec.2.2.1, hspec.2.2.2⟩
  · rw [if_neg h0]
    refine ⟨Nat.zero_le _, ?_, ?_⟩
    · intro i d hi; omega
    · intro i d _ hi; omega

/-- The series `X`, whose samples carry the property `x`: the listener looks up
index 3 at time 2.4 and index 2 at time 2, and index 4 beyond the last sample. -/
theorem hit_test_with_property_x :
    ∃ c : Chart ArraySample,
      horizon pageEnv [serieX] { xDomain := some (0, 4), onHover := true } = Except.ok c ∧
      c.seriesListeners.map (fun l => l.index (12 / 5)) = [3] ∧
      c.seriesListeners.map (fun l => l.index 2) = [2] ∧
      c.seriesListeners.map (fun l => l.index 9) = [4] ∧
      hoverValues c (12 / 5) = some [{ name := "X", value := some (JsNum.val 13) }] ∧
      hoverValues c 2 = some [{ name := "X", value := some (JsNum.val 12) }] := by
  have h : (12 / 5 : ℚ) = mkRat 12 5 := by rw [Rat.mkRat_eq_div]; norm_num
  rw [h]
  exact ⟨_, rfl, by decide, by decide, by decide, by decide, by decide⟩

/-! ## The definedness flags of a second series -/

/-- C6 fails on the code: for the series `A` (y-values 5, -3, `NaN`, 8) followed
by the series `B` (x-value 0, y-value `NaN`), `xDomain = [0, 3]` and no
`defined` predicate, the flag `D[0]` of `B` is true although `Y[0]` of `B` is
`NaN`: the predicate stored while handling `A` reads the `X` and `Y` of `A`. -/
theorem defined_reads_first_series :
    ∃ c : Chart ArraySample,
      horizon pageEnv [serieA, serieB] { xDomain := some (0, 3) } = Except.ok c ∧
      c.groups.map (fun g => (g.name, g.X, g.Y, g.D)) =
        [("A", [JsNum.val 0, JsNum.val 1, JsNum.val 2, JsNum.val 3],
            [JsNum.val 5, JsNum.val (-3), JsNum.nan, JsNum.val 8], [true, true, false, true]),
         ("B", [JsNum.val 0], [JsNum.nan], [true])] :=
  ⟨_, rfl, by decide⟩

/-! ## Where the definedness flags come from -/

theorem mkGroup_D_closure {σ : Type} (cfg : Config σ) (X Y : List JsNum) (name : String)
    (data : List σ) (j : ℕ) (token : String) (pu nu : List BandUse) (idx : ℕ)
    (hidx : idx < data.length) :
    (mkGroup cfg (Defined.closure X Y) name data j token pu nu).D[idx]? =
      some (!(JsNum.isNaN (toNumber X[idx]?)) && !(JsNum.isNaN (toNumber Y[idx]?))) := by
  simp only [mkGroup, List.getElem?_mapIdx, List.getElem?_eq_getElem hidx, Option.map_some',
    Defined.apply]

/-- Once `defined` is set, the loop leaves it alone: every group it adds is
built with that same value. -/
theorem seriesLoop_defined_set {σ : Type} (env : Env) (cfg : Config σ) (d : Defined σ) :
    ∀ (series : List (Serie σ)) (i : Nat) (st st1 : LoopState σ),
      st.defined = some d → seriesLoop env cfg series i st = Except.ok st1 →
      ∃ added, st1.groups = st.groups ++ added ∧
        ∀ g ∈ added, ∃ (name : String) (data : List σ) (j : ℕ) (token : String)
          (pu nu : List BandUse), g = mkGroup cfg d name data j token pu nu := by
  intro series
  induction series with
  | nil =>
    intro i st st1 _ h
    simp only [seriesLoop, Except.ok.injEq] at h
    subst h
    exact ⟨[], by simp, fun g hg => (by cases hg)⟩
  | cons serie rest ih =>
    intro i st st1 hdef h
    obtain ⟨st0, hstep, hrest⟩ := seriesLoop_cons_inv h
    rcases seriesStep_inv hstep with ⟨_, h0⟩ | ⟨data, token, pu, nu, hd, _, _, _, _, h0⟩
    · rw [h0] at hrest
      exact ih (i + 1) st st1 hdef hrest
    · have hcur : currentDefined st.defined (data.map cfg.x) (data.map cfg.y) = d := by
        rw [hdef]; rfl
      rw [hcur] at h0
      subst h0
      obtain ⟨added, hadd, hall⟩ := ih (i + 1) _ st1 rfl hrest
      refine ⟨mkGroup cfg d serie.name data i token pu nu :: added, ?_, ?_⟩
      · rw [hadd]; simp
      · intro g hg
        rcases List.mem_cons.mp hg with h1 | h1
        · exact ⟨serie.name, data, i, token, pu, nu, h1⟩
        · exact hall g h1

/-- Started with `defined` unset and no group, the loop builds every group with
the closure over the `X` and `Y` of the first series that has data. -/
theorem seriesLoop_defined_unset {σ : Type} (env : Env) (cfg : Config σ) :
    ∀ (series : List (Serie σ)) (i : Nat) (st st1 : LoopState σ),
      st.defined = none → st.groups = [] → seriesLoop env cfg series i st = Except.ok st1 →
      st1.groups = [] ∨
      ∃ (data0 : List σ) (serie0 : Serie σ) (before after : List (Serie σ)),
        series = before ++ serie0 :: after ∧ (∀ serie ∈ before, serie.data = none) ∧
        serie0.data = some data0 ∧
        ∀ g ∈ st1.groups, ∃ (name : String) (data : List σ) (j : ℕ) (token : String)
          (pu nu : List BandUse),
          g = mkGroup cfg (Defined.closure (data0.map cfg.x) (data0.map cfg.y)) name data j
            token pu nu := by
  intro series
  induction series with
  | nil =>
    intro i st st1 _ hg h
    simp only [seriesLoop, Except.ok.injEq] at h
    subst h
    exact Or.inl hg
  | cons serie rest ih =>
    intro i st st1 hdef hg h
    obtain ⟨st0, hstep, hrest⟩ := seriesLoop_cons_inv h
    rcases seriesStep_inv hstep with ⟨hd, h0⟩ | ⟨data, token, pu, nu, hd, _, _, _, _, h0⟩
    · rw [h0] at hrest
      rcases ih (i + 1) st st1 hdef hg hrest with
        h1 | ⟨data0, serie0, before, after, hsplit, hbefore, hdata, hall⟩
      · exact Or.inl h1
      · refine Or.inr ⟨data0, serie0, serie :: before, after, by rw [hsplit]; rfl, ?_, hdata,
          hall⟩
        intro s hs
        rcases List.mem_cons.mp hs with h1 | h1
        · rw [h1]; exact hd
        · exact hbefore s h1
    · have hcur : currentDefined st.defined (data.map cfg.x) (data.map cfg.y) =
          Defined.closure (data.map cfg.x) (data.map cfg.y) := by
        rw [hdef]; rfl
      rw [hcur, hg] at h0
      subst h0
      obtain ⟨added, hadd, hall⟩ := seriesLoop_defined_set env cfg _ rest (i + 1) _ st1 rfl hrest
      refine Or.inr ⟨data, serie, [], rest, rfl, fun s hs => (by cases hs), hd, ?_⟩
      intro g hgm
      rw [hadd] at hgm
      simp only [List.nil_append, List.mem_append, List.mem_singleton] at hgm
      rcases hgm with h1 | h1
      · exact ⟨serie.name, data, i, token, pu, nu, h1⟩
      · exact hall g h1

/-- What `horizon` does for the definedness flags when the caller supplies no
`defined` predicate: every group takes its flags from the `X` and `Y` of the
first series that has data; `D[idx]` of any group is true exactly when
`X[idx]` and `Y[idx]` of that first series are both not `NaN` (an index beyond
them counts as `NaN`). -/
theorem defined_flags_of_first_series {σ : Type} [JsSample σ] (env : Env)
    (series : List (Serie σ)) (o : Options σ) (c : Chart σ)
    (h : horizon env series o = Except.ok c) (hdef : o.defined = none) :
    c.groups = [] ∨
    ∃ (data0 : List σ) (serie0 : Serie σ) (before after : List (Serie σ)),
      series = before ++ serie0 :: after ∧ (∀ serie ∈ before, serie.data = none) ∧
      serie0.data = some data0 ∧
      ∀ g ∈ c.groups, ∀ idx : ℕ, idx < g.Y.length →
        g.D[idx]? = some (!(JsNum.isNaN (toNumber (data0.map (resolve env o).x)[idx]?)) &&
          !(JsNum.isNaN (toNumber (data0.map (resolve env o).y)[idx]?))) := by
  obtain ⟨_, st, hl, hc⟩ := horizonCfg_ok h
  subst hc
  have hcfg : (resolve env o).defined = none := hdef
  rcases seriesLoop_defined_unset env (resolve env o) series 0 _ st (by rw [hcfg]; rfl) rfl hl
    with h1 | ⟨data0, serie0, before, after, hsplit, hbefore, hdata, hall⟩
  · exact Or.inl h1
  · refine Or.inr ⟨data0, serie0, before, after, hsplit, hbefore, hdata, ?_⟩
    intro g hg idx hidx
    obtain ⟨name, data, j, token, pu, nu, hform⟩ := hall g hg
    subst hform
    have hlen : idx < data.length := by simpa [mkGroup] using hidx
    exact mkGroup_D_closure (resolve env o) _ _ name data j token pu nu idx hlen

/-! ## The chart height -/

/-- C5: the height of every chart `horizon` returns is
`series.length * size + marginTop + marginBottom`, where `series.length` counts
every series, with or without data, and `size`, `marginTop`, `marginBottom`
are the caller's options or, where left out, their defaults 25, 20 and 0; for
one series and these three defaults it is 45. -/
theorem chart_height_eq {σ : Type} [JsSample σ] (env : Env) (series : List (Serie σ))
    (o : Options σ) (c : Chart σ) (h : horizon env series o = Except.ok c) :
    c.height = (series.length : ℚ) * o.size.getD 25 + o.marginTop.getD 20
        + o.marginBottom.getD 0 ∧
      (series.length = 1 → o.size = none → o.marginTop = none → o.marginBottom = none →
        c.height = 45) := by
  obtain ⟨_, st, _, hc⟩ := horizonCfg_ok h
  subst hc
  refine ⟨rfl, ?_⟩
  intro h1 hs ht hb
  simp only [chartHeight, resolve, h1, hs, ht, hb, Option.getD_none]
  norm_num

/-- C5 at the series `C` (no data) and `A` with `size = 30`, `marginTop = 5`,
`marginBottom = 7` and `xDomain = [0, 3]`: one group, height `2 * 30 + 5 + 7 = 72`;
and at the single series `A` with the three defaults: height 45. -/
theorem chart_height_eq_witness :
    (∃ c : Chart ArraySample,
      horizon pageEnv [serieC, serieA]
        { size := some 30, marginTop := some 5, marginBottom := some 7, xDomain := some (0, 3) }
        = Except.ok c ∧ c.groups.length = 1 ∧ c.height = 72) ∧
    (∃ c : Chart ArraySample,
      horizon pageEnv [serieA] { xDomain := some (0, 3) } = Except.ok c ∧ c.height = 45) :=
  ⟨⟨_, rfl, rfl,
      (chart_height_eq pageEnv [serieC, serieA]
        { size := some 30, marginTop := some 5, marginBottom := some 7, xDomain := some (0, 3) }
        _ rfl).1.trans (by norm_num)⟩,
    ⟨_, rfl,
      (chart_height_eq pageEnv [serieA] { xDomain := some (0, 3) } _ rfl).2 rfl rfl rfl rfl⟩⟩

/-! ## The arguments of the x-scale constructor -/

/-- C7 fails on the code: for the series `T`, whose x-values are 0, 1, 2, 3, 4,
and no `xDomain`, the extent of the x-values is `[0, 4]`, but `horizon` infers
nothing: it calls the x-scale constructor with an `undefined` domain, on which
the default `scaleTime` throws, so the call returns no chart; with a
constructor that accepts any domain the chart records the `undefined` domain
it was handed. -/
theorem xDomain_not_inferred :
    specXDomain [serieT] (resolve pageEnv ({} : Options ArraySample)).x = some (0, 4) ∧
    (resolve pageEnv ({} : Options ArraySample)).xDomain = none ∧
    horizon pageEnv [serieT] {} = Except.error "TypeError: undefined is not iterable" ∧
    ∃ c : Chart ArraySample,
      horizon pageEnv [serieT] { xType := some fun _ _ => Except.ok () } = Except.ok c ∧
      c.xScaleDomain = none :=
  ⟨by decide, rfl, rfl, _, rfl, rfl⟩

/-- The arguments `horizon` hands to the x-scale constructor, in every chart it
returns: the caller's `xDomain` as it is, and as range the caller's `xRange`
or, when left out, `[marginLeft, width - marginRight]`. -/
theorem xScale_arguments {σ : Type} [JsSample σ] (env : Env) (series : List (Serie σ))
    (o : Options σ) (c : Chart σ) (h : horizon env series o = Except.ok c) :
    c.xScaleDomain = o.xDomain ∧
    c.xScaleRange =
      o.xRange.getD (o.marginLeft.getD 0, o.width.getD 640 - o.marginRight.getD 0) := by
  obtain ⟨_, st, _, hc⟩ := horizonCfg_ok h
  subst hc
  exact ⟨rfl, rfl⟩

/-! ## The hover values -/

theorem filterMap_names {σ : Type} (y : σ → JsNum) (series : List (Serie σ)) :
    (series.filterMap fun serie =>
        serie.data.map fun data =>
          ({ name := serie.name, data := data, Y := data.map y } : Listener σ)).map
        (fun l => l.name) =
      (series.filter fun serie => serie.data.isSome).map fun serie => serie.name := by
  induction series with
  | nil => rfl
  | cons serie rest ih =>
    cases hd : serie.data with
    | none => simp [List.filterMap_cons, List.filter_cons, hd, ih]
    | some data => simp [List.filterMap_cons, List.filter_cons, hd, ih]

/-- C8: a series without data does not fail the render of the others: the call
with all the series returns a chart exactly when the call with only the series
that have data does, which is exactly when the x-scale constructor returns and
the y-scale constructor, `uuid()` and the two data joins return for each series
that has data.  In every chart `horizon` returns, the listeners and the series
groups are those of the series with data, in the order of the input; a series
without data has neither.  On a pointer move with a hover callback, the values
reported are one `{ name, value }` entry per series with data, in that order,
each the result of that series' listener. -/
theorem hover_values_per_series {σ : Type} [JsSample σ] (env : Env) (series : List (Serie σ))
    (o : Options σ) :
    ((∃ c, horizon env series o = Except.ok c) ↔
      ∃ c, horizon env (series.filter fun serie => serie.data.isSome) o = Except.ok c) ∧
    ((∃ c, horizon env series o = Except.ok c) ↔
      (resolve env o).xType (resolve env o).xDomain (resolve env o).xRange = Except.ok () ∧
      ∀ serie ∈ series, ∀ data, serie.data = some data →
        callsReturn env (resolve env o) data) ∧
    ∀ c, horizon env series o = Except.ok c →
      c.seriesListeners.map (fun l => l.name) =
        (series.filter fun serie => serie.data.isSome).map (fun serie => serie.name) ∧
      c.groups.map (fun g => g.name) =
        (series.filter fun serie => serie.data.isSome).map (fun serie => serie.name) ∧
      (o.onHover = true → ∀ t : ℚ, ∃ values, hoverValues c t = some values ∧
        values = (series.filterMap fun serie =>
          serie.data.map fun data =>
            Listener.call
              { name := serie.name, data := data, Y := data.map (resolve env o).y } t) ∧
        values.map (fun v => v.name) =
          (series.filter fun serie => serie.data.isSome).map (fun serie => serie.name) ∧
        values.length = (series.filter fun serie => serie.data.isSome).length) := by
  refine ⟨?_, horizon_returns_iff env series o, ?_⟩
  · rw [horizon_returns_iff, horizon_returns_iff]
    constructor
    · rintro ⟨hx, hall⟩
      exact ⟨hx, fun serie hs => hall serie (List.mem_filter.mp hs).1⟩
    · rintro ⟨hx, hall⟩
      refine ⟨hx, fun serie hs data hd => hall serie ?_ data hd⟩
      exact List.mem_filter.mpr ⟨hs, by rw [hd]; rfl⟩
  · intro c h
    obtain ⟨_, st, hl, hc⟩ := horizonCfg_ok h
    subst hc
    have hlis := seriesLoop_listeners env (resolve env o) series 0 _ st hl
    have hgrp := seriesLoop_group_names env (resolve env o) series 0 _ st hl
    simp only [List.nil_append, List.map_nil] at hlis hgrp
    have hnames := filterMap_names (resolve env o).y series
    refine ⟨by rw [hlis]; exact hnames, hgrp, ?_⟩
    intro hover t
    have hcfg : (resolve env o).onHover = true := hover
    have hv : hoverValues
        ({ width := (resolve env o).width, height := chartHeight series (resolve env o),
           xScaleDomain := (resolve env o).xDomain, xScaleRange := (resolve env o).xRange,
           groups := st.groups, seriesListeners := st.seriesListeners,
           rulerY2 := chartHeight series (resolve env o),
           onHover := (resolve env o).onHover } : Chart σ) t
        = some (st.seriesListeners.map fun listener => listener.call t) := by
      simp only [hoverValues, hcfg, if_true]
    refine ⟨_, hv, ?_, ?_, ?_⟩
    · rw [hlis, List.map_filterMap]
      congr 1
      funext serie
      cases serie.data <;> rfl
    · rw [List.map_map, ← hnames, ← hlis]
      rfl
    · rw [List.length_map, ← List.length_map _ (fun serie : Serie σ => serie.name), ← hnames,
        List.length_map, hlis]

/-- C8 at the series `C` (no data), `A`, `C`, `B` with `xDomain = [0, 3]` and a
hover callback: the call returns a chart, as the call with `A` and `B` alone
does, and the values at time 0 are those of `A` and `B`, in that order. -/
theorem hover_values_per_series_witness :
    (∃ c : Chart ArraySample,
      horizon pageEnv [serieC, serieA, serieC, serieB]
        { xDomain := some (0, 3), onHover := true } = Except.ok c ∧
      ∃ values, hoverValues c 0 = some values ∧ values.map (fun v => v.name) = ["A", "B"]) ∧
    ∃ c : Chart ArraySample,
      horizon pageEnv [serieA, serieB] { xDomain := some (0, 3), onHover := true }
        = Except.ok c :=
  ⟨⟨_, rfl,
      (((hover_values_per_series pageEnv [serieC, serieA, serieC, serieB]
          { xDomain := some (0, 3), onHover := true }).2.2 _ rfl).2.2
        rfl 0).imp fun _ hv => ⟨hv.1, hv.2.2.1⟩⟩,
    (hover_values_per_series pageEnv [serieC, serieA, serieC, serieB]
      { xDomain := some (0, 3), onHover := true }).1.mp ⟨_, rfl⟩⟩

/-! ## Band counts below one -/

/-- With `bands < 0`, once the y-scale constructor and `uuid()` have returned
for the series that have data, the loop ends with the `RangeError` of
`new Array(bands)` at the first of them. -/
theorem seriesLoop_error_range {σ : Type} (env : Env) (cfg : Config σ) (hneg : cfg.bands < 0)
    (ht : env.uuid.isSome = true)
    (hy : ∀ data : List σ,
      cfg.yType (yDomainLocal cfg.yDomain (data.map cfg.y)) cfg.yRange = Except.ok ()) :
    ∀ (series : List (Serie σ)) (i : Nat) (st : LoopState σ),
      (∃ serie ∈ series, serie.data.isSome = true) →
      seriesLoop env cfg series i st = Except.error "RangeError: Invalid array length" := by
  intro series
  induction series with
  | nil => intro i st h; rcases h with ⟨s, hs, _⟩; cases hs
  | cons serie rest ih =>
    intro i st h
    cases hd : serie.data with
    | none =>
      rw [seriesLoop_cons_of (seriesStep_of_no_data env cfg st serie i hd)]
      apply ih (i + 1) st
      rcases h with ⟨s, hs, hsd⟩
      rcases List.mem_cons.mp hs with h1 | h1
      · subst h1; rw [hd] at hsd; cases hsd
      · exact ⟨s, h1, hsd⟩
    | some data =>
      obtain ⟨token, htoken⟩ := Option.isSome_iff_exists.mp ht
      have hstep : seriesStep env cfg st serie i
          = Except.error "RangeError: Invalid array length" := by
        simp [seriesStep, hd, hy data, htoken, bandUses_error_range cfg.size (Or.inl hneg)]
      simp only [seriesLoop, hstep]

/-- C9, as stated, fails: with `bands = 0`, `xDomain = [0, 3]` and the series `A`,
which has data, `horizon` returns a chart, the band count is still 0, and the
group of `A` has no band copy of either sign. -/
theorem bands_zero_accepted :
    ∃ c : Chart ArraySample,
      horizon pageEnv [serieA] { bands := some 0, xDomain := some (0, 3) } = Except.ok c ∧
      (resolve pageEnv ({ bands := some 0, xDomain := some (0, 3) } : Options ArraySample)).bands
        = 0 ∧
      c.groups.map (fun g => (g.name, g.positiveUses, g.negativeUses)) = [("A", [], [])] :=
  ⟨_, rfl, rfl, by decide⟩

/-- C9, amended: the band count is the caller's `bands` or its default 3, never
clamped.  With `bands < 0` and at least one series that has data the call
fails, and when the scale constructors return and `uuid` is available the
failure is the `RangeError` of `new Array(bands)`.  With `bands = 0` the call
returns a chart exactly when the x-scale constructor returns and, for each
series that has data, the y-scale constructor returns and `uuid` is available.
In every chart returned with `bands <= 0` no series group has a band copy. -/
theorem bands_nonpositive {σ : Type} [JsSample σ] (env : Env) (series : List (Serie σ))
    (o : Options σ) (hb : (resolve env o).bands ≤ 0) :
    (resolve env o).bands = o.bands.getD 3 ∧
    ((resolve env o).bands < 0 → (∃ serie ∈ series, serie.data.isSome = true) →
      ∃ e, horizon env series o = Except.error e) ∧
    ((resolve env o).bands < 0 → (∃ serie ∈ series, serie.data.isSome = true) →
      (resolve env o).xType (resolve env o).xDomain (resolve env o).xRange = Except.ok () →
      env.uuid.isSome = true →
      (∀ data : List σ, (resolve env o).yType
        (yDomainLocal (resolve env o).yDomain (data.map (resolve env o).y)) (resolve env o).yRange
          = Except.ok ()) →
      horizon env series o = Except.error "RangeError: Invalid array length") ∧
    ((resolve env o).bands = 0 →
      ((∃ c, horizon env series o = Except.ok c) ↔
        (resolve env o).xType (resolve env o).xDomain (resolve env o).xRange = Except.ok () ∧
        ∀ serie ∈ series, ∀ data, serie.data = some data →
          (resolve env o).yType
            (yDomainLocal (resolve env o).yDomain (data.map (resolve env o).y))
            (resolve env o).yRange = Except.ok () ∧
          env.uuid.isSome = true)) ∧
    (∀ c, horizon env series o = Except.ok c →
      ∀ g ∈ c.groups, g.positiveUses = [] ∧ g.negativeUses = []) := by
  refine ⟨rfl, ?_, ?_, ?_, ?_⟩
  · intro hneg hdata
    cases hres : horizon env series o with
    | error e => exact ⟨e, rfl⟩
    | ok c =>
      exfalso
      obtain ⟨serie, hs, hsome⟩ := hdata
      obtain ⟨data, hd⟩ := Option.isSome_iff_exists.mp hsome
      obtain ⟨_, _, ⟨pu, hp⟩, _⟩ :=
        ((horizon_returns_iff env series o).mp ⟨c, hres⟩).2 serie hs data hd
      have := (bandUses_inv hp).1
      omega
  · intro hneg hdata hx ht hy
    unfold horizon horizonCfg
    rw [hx, seriesLoop_error_range env (resolve env o) hneg ht hy series 0 _ hdata]
  · intro h0
    rw [horizon_returns_iff]
    have hok : ∀ ramp : Option Ramp,
        ∃ uses, bandUses ramp (resolve env o).bands (resolve env o).size = Except.ok uses :=
      fun ramp => ⟨_, bandUses_of (resolve env o).size (le_of_eq h0.symm)
        (by rw [h0]; norm_num) (Or.inr h0)⟩
    constructor
    · rintro ⟨hx, hall⟩
      exact ⟨hx, fun serie hs data hd =>
        ⟨(hall serie hs data hd).1, (hall serie hs data hd).2.1⟩⟩
    · rintro ⟨hx, hall⟩
      exact ⟨hx, fun serie hs data hd =>
        ⟨(hall serie hs data hd).1, (hall serie hs data hd).2, hok _, hok _⟩⟩
  · intro c hc g hg
    obtain ⟨serie, _, data, defined, token, pu, nu, j, _, hp, hn, hform⟩ :=
      horizon_group_form hc hg
    subst hform
    have hlp := bandUses_length hp
    have hln := bandUses_length hn
    have h0 : (resolve env o).bands.toNat = 0 := by omega
    rw [h0] at hlp hln
    exact ⟨List.length_eq_zero.mp hlp, List.length_eq_zero.mp hln⟩

/-- C9, amended, at `bands = -1` with `xDomain = [0, 3]` and the series `A`: the
call fails with the `RangeError`. -/
theorem bands_nonpositive_witness :
    horizon pageEnv [serieA] { bands := some (-1), xDomain := some (0, 3) }
      = Except.error "RangeError: Invalid array length" :=
  (bands_nonpositive pageEnv [serieA] { bands := some (-1), xDomain := some (0, 3) }
    (by decide)).2.2.1 (by decide) ⟨serieA, List.Mem.head _, rfl⟩ rfl rfl (fun _ => rfl)

end Horizon
